import Mathlib

/-!
Verification of the artifact-integrity scanner (`main.go`).

The development shallowly embeds the verification engine: byte/string
helpers mirroring the Go standard-library calls the scanner makes
(`strings.TrimSpace`, `strings.ToLower`, `bufio.ScanLines`, hex encoding,
SHA-256), the fixed name/extension tables, each checker
(`checkMissingChecksum`, `checkUnsignedArtifact`, `checkChecksumMismatches`,
`checkNPMLockfileIntegrity`, `checkGoSumIntegrity`), the per-file dispatch
and the cancellable directory walk of `handleScan`.  File contents are byte
lists (`List Nat`, each element < 256); the filesystem is an explicit
environment of read functions.
-/

set_option autoImplicit false

namespace ArtifactIntegrity

/-! ## Byte and string helpers -/

/-- Hexadecimal character class of the Go regexp `[a-fA-F0-9]`. -/
def isHexChar (c : Char) : Bool :=
  (('0' ≤ c && c ≤ '9') || ('a' ≤ c && c ≤ 'f') || ('A' ≤ c && c ≤ 'F'))

/-- Character class of the Go RE2 `\s`, which is exactly tab, newline,
form feed, carriage return and space; the vertical tab U+000B is NOT in
RE2 `\s` (so a `\v` separates nothing in the two anchored patterns and
stays inside `\S+` tokens). -/
def isRegexSpace (c : Char) : Bool :=
  (c.toNat == 9 || c.toNat == 10 || c.toNat == 12 || c.toNat == 13 || c.toNat == 32)

/-- Model of `unicode.IsSpace` as used by `strings.TrimSpace`, restricted to the
Latin-1 range (the higher Zs code points never occur in the inputs the
scanner handles): the five RE2 space characters plus the vertical tab
U+000B (which `unicode.IsSpace` does accept), NEL (U+0085) and NBSP
(U+00A0). -/
def isUniSpace (c : Char) : Bool :=
  (isRegexSpace c || c.toNat == 11 || c.toNat == 133 || c.toNat == 160)

/-- Model of `strings.TrimSpace`: drop leading and trailing white space. -/
def trimSpace (s : String) : String :=
  String.mk (((s.toList.dropWhile isUniSpace).reverse.dropWhile isUniSpace).reverse)

/-- ASCII lower-casing of one character (`strings.ToLower` acts this way on
every character appearing in the fixed tables of the scanner and hex hashes). -/
def lowerChar (c : Char) : Char :=
  if 'A' ≤ c && c ≤ 'Z' then Char.ofNat (c.toNat + 32) else c

/-- Model of `strings.ToLower` (ASCII fragment; special Unicode foldings such as the
Kelvin sign are not modelled). -/
def asciiToLower (s : String) : String :=
  String.mk (s.toList.map lowerChar)

/-- Model of `strings.HasSuffix`. -/
def strEndsWith (s suffx : String) : Bool :=
  suffx.toList.isSuffixOf s.toList

/-- Model of `strings.TrimPrefix(s, "*")`: drop a single leading `*` if present. -/
def trimStar (s : String) : String :=
  match s.toList with
  | '*' :: rest => String.mk rest
  | _ => s

/-- First `n` characters of a string (Go ASCII slicing `s[:n]`). -/
def strTake (s : String) (n : Nat) : String :=
  String.mk (s.toList.take n)

/-- Model of `filepath.Join` for the cleaned path components the scanner produces
(the `Clean` normalisation pass of the Go function is the identity on
them). -/
def joinPath (dir name : String) : String :=
  if dir = "" then name else if name = "" then dir else dir ++ "/" ++ name

/-- Model of `filepath.Base` for the non-empty, non-trailing-slash paths produced by
`filepath.WalkDir`. -/
def baseName (p : String) : String :=
  let tail := (p.toList.reverse.takeWhile (fun c => c ≠ '/')).reverse
  if p = "" then (".") else if tail = [] then ("/") else String.mk tail

/-- Model of `filepath.Dir` for the same class of paths. -/
def dirName (p : String) : String :=
  let cs := p.toList
  let tailLen := (cs.reverse.takeWhile (fun c => c ≠ '/')).length
  let rest := cs.take (cs.length - tailLen)
  if rest = [] then (".") else if rest = ['/'] then ("/") else String.mk rest.dropLast

/-- ASCII bytes of a string (used to build concrete file contents). -/
def bytesOfAscii (s : String) : List Nat :=
  s.toList.map Char.toNat

/-- Latin-1 decoding of bytes into a string, the identity on the ASCII
text the line-oriented checks of the scanner process. -/
def strOfBytes (bs : List Nat) : String :=
  String.mk (bs.map Char.ofNat)

/-- Split a byte list at every occurrence of `sep`; always returns at least
one (possibly empty) chunk. -/
def splitOnByte (sep : Nat) : List Nat → List (List Nat)
  | [] => [[]]
  | b :: bs =>
    if b = sep then [] :: splitOnByte sep bs
    else
      match splitOnByte sep bs with
      | [] => [[b]]
      | c :: cs => (b :: c) :: cs

/-- Model of `bufio.ScanLines` drops one trailing carriage return from each line. -/
def dropTrailCR (bs : List Nat) : List Nat :=
  if bs.getLast? = some 13 then bs.dropLast else bs

/-- The default `bufio.MaxScanTokenSize` (64 KiB): the scanner refuses to
buffer a longer token. -/
def maxScanTokenSize : Nat := 65536

/-- The sequence of lines `bufio.Scanner` with `bufio.ScanLines` yields on a
byte stream: split at newlines, no empty final token after a terminating
newline, one trailing carriage return stripped per line.  A raw line of
`maxScanTokenSize` or more bytes (carriage return included, newline
excluded) cannot be buffered: `Scan` fails with `ErrTooLong` before
yielding it, so that line and every later one are silently dropped — both
scanner loops in the program fall out of `for scanner.Scan()` and ignore
`scanner.Err()`. -/
def linesOf (bytes : List Nat) : List String :=
  if bytes = [] then []
  else
    let ps := splitOnByte 10 bytes
    let ps2 := if ps.getLast? = some [] then ps.dropLast else ps
    (ps2.takeWhile (fun chunk => chunk.length < maxScanTokenSize)).map
      (fun b => strOfBytes (dropTrailCR b))

/-- Lookup in an association list, modelling Go map indexing. -/
def lookupAssoc (l : List (String × String)) (k : String) : Option String :=
  match l with
  | [] => none
  | (a, b) :: rest => if a = k then some b else lookupAssoc rest k

/-- Insertion/overwrite in an association list, modelling Go map assignment. -/
def updateAssoc (l : List (String × String)) (k v : String) : List (String × String) :=
  match l with
  | [] => [(k, v)]
  | (a, b) :: rest => if a = k then (k, v) :: rest else (a, b) :: updateAssoc rest k v

theorem lookupAssoc_updateAssoc (l : List (String × String)) (k v k' : String) :
    lookupAssoc (updateAssoc l k v) k' = if k = k' then some v else lookupAssoc l k' := by
  induction l with
  | nil =>
    simp only [updateAssoc, lookupAssoc]
  | cons hd tl ih =>
    obtain ⟨a, b⟩ := hd
    by_cases hak : a = k
    · subst hak
      simp only [updateAssoc, if_pos rfl, lookupAssoc]
      by_cases h : a = k' <;> simp [h]
    · simp only [updateAssoc, if_neg hak, lookupAssoc, ih]
      by_cases hak' : a = k'
      · subst hak'
        simp only [if_pos rfl]
        have : ¬ k = a := fun h => hak h.symm
        simp [this]
      · simp [hak']

/-! ## SHA-256 (`crypto/sha256` + `encoding/hex`)

A direct embedding of FIPS 180-4 over byte lists, with 32-bit words
represented as natural numbers reduced modulo `2 ^ 32`. -/

/-- Reduce to a 32-bit word. -/
def w32 (x : Nat) : Nat := x % 4294967296

/-- The 32-bit addition. -/
def wadd (a b : Nat) : Nat := (a + b) % 4294967296

/-- The 32-bit complement (valid on inputs below `2 ^ 32`). -/
def wnot (x : Nat) : Nat := 4294967295 - x

/-- Right rotation of a 32-bit word by `n` places. -/
def rotr32 (n x : Nat) : Nat := x / 2 ^ n + x % 2 ^ n * 2 ^ (32 - n)

/-- Logical right shift of a 32-bit word. -/
def shr32 (n x : Nat) : Nat := x / 2 ^ n

/-- Three-way xor. -/
def xor3 (a b c : Nat) : Nat := Nat.xor (Nat.xor a b) c

/-- The round-constant table of the compression function (the fractional
parts of the cube roots of the first 64 primes), written in decimal. -/
def sha256K : List Nat :=
  [1116352408, 1899447441, 3049323471, 3921009573, 961987163, 1508970993,
   2453635748, 2870763221, 3624381080, 310598401, 607225278, 1426881987,
   1925078388, 2162078206, 2614888103, 3248222580, 3835390401, 4022224774,
   264347078, 604807628, 770255983, 1249150122, 1555081692, 1996064986,
   2554220882, 2821834349, 2952996808, 3210313671, 3336571891, 3584528711,
   113926993, 338241895, 666307205, 773529912, 1294757372, 1396182291,
   1695183700, 1986661051, 2177026350, 2456956037, 2730485921, 2820302411,
   3259730800, 3345764771, 3516065817, 3600352804, 4094571909, 275423344,
   430227734, 506948616, 659060556, 883997877, 958139571, 1322822218,
   1537002063, 1747873779, 1955562222, 2024104815, 2227730452, 2361852424,
   2428436474, 2756734187, 3204031479, 3329325298]

/-- The initial hash state (fractional parts of the square roots of the
first 8 primes), written in decimal. -/
def sha256H0 : List Nat :=
  [1779033703, 3144134277, 1013904242, 2773480762,
   1359893119, 2600822924, 528734635, 1541459225]

/-- Big-endian assembly of 4-byte groups into 32-bit words. -/
def bytesToWords : List Nat → List Nat
  | a :: b :: c :: d :: rest => (((a * 256 + b) * 256 + c) * 256 + d) :: bytesToWords rest
  | _ => []

/-- The function σ₀ of the message schedule. -/
def ssig0 (x : Nat) : Nat := xor3 (rotr32 7 x) (rotr32 18 x) (shr32 3 x)

/-- The function σ₁ of the message schedule. -/
def ssig1 (x : Nat) : Nat := xor3 (rotr32 17 x) (rotr32 19 x) (shr32 10 x)

/-- Extend the 16-word schedule by `n` further words. -/
def sha256Extend : List Nat → Nat → List Nat
  | ws, 0 => ws
  | ws, n + 1 =>
    let i := ws.length
    let g := fun k => ws.getD k 0
    sha256Extend (ws ++ [wadd (wadd (ssig1 (g (i - 2))) (g (i - 7))) (wadd (ssig0 (g (i - 15))) (g (i - 16)))]) n

/-- One round of the SHA-256 compression function on the state `[a,…,h]`. -/
def sha256Round (st : List Nat) (wk : Nat × Nat) : List Nat :=
  match st with
  | [a, b, c, d, e, f, g, h] =>
    let s1 := xor3 (rotr32 6 e) (rotr32 11 e) (rotr32 25 e)
    let ch := Nat.xor (Nat.land e f) (Nat.land (wnot e) g)
    let t1 := wadd h (wadd s1 (wadd ch (wadd wk.1 wk.2)))
    let s0 := xor3 (rotr32 2 a) (rotr32 13 a) (rotr32 22 a)
    let mj := Nat.xor (Nat.xor (Nat.land a b) (Nat.land a c)) (Nat.land b c)
    let t2 := wadd s0 mj
    [wadd t1 t2, a, b, c, wadd d t1, e, f, g]
  | _ => st

/-- Compress one 64-byte block into the running hash. -/
def sha256Compress (h : List Nat) (block : List Nat) : List Nat :=
  let ws := sha256Extend (bytesToWords block) 48
  let st := (ws.zip sha256K).foldl sha256Round h
  (h.zip st).map (fun p => wadd p.1 p.2)

/-- Big-endian byte expansion of `x` into `n` bytes. -/
def beBytes (n x : Nat) : List Nat :=
  match n with
  | 0 => []
  | m + 1 => x / 2 ^ (8 * m) % 256 :: beBytes m x

/-- Merkle–Damgård padding: `0x80`, zeros to 56 mod 64, then the bit length
in 8 big-endian bytes. -/
def sha256Pad (msg : List Nat) : List Nat :=
  msg ++ [128] ++ List.replicate ((119 - msg.length % 64) % 64) 0 ++ beBytes 8 (8 * msg.length)

/-- Split into 64-byte blocks (fuel-structured so the kernel can evaluate it). -/
def chunksAux : Nat → List Nat → List (List Nat)
  | 0, _ => []
  | _, [] => []
  | fuel + 1, b :: bs => (b :: bs.take 63) :: chunksAux fuel (bs.drop 63)

/-- Split a byte list into 64-byte blocks. -/
def chunksOf64 (bs : List Nat) : List (List Nat) := chunksAux bs.length bs

/-- SHA-256 digest (32 bytes) of a byte list. -/
def sha256Bytes (msg : List Nat) : List Nat :=
  let hs := (chunksOf64 (sha256Pad msg)).foldl sha256Compress sha256H0
  hs.flatMap (fun w => [w / 16777216 % 256, w / 65536 % 256, w / 256 % 256, w % 256])

/-- One lowercase hexadecimal digit. -/
def hexDigit (n : Nat) : Char :=
  if n < 10 then Char.ofNat (48 + n) else Char.ofNat (87 + n)

/-- Model of `hex.EncodeToString`: lowercase hexadecimal encoding of bytes. -/
def hexEncode (bs : List Nat) : String :=
  String.mk (bs.flatMap (fun b => [hexDigit (b / 16), hexDigit (b % 16)]))

/-- Model of `hex.EncodeToString(sha256.Sum256(data))` as one function. -/
def sha256Hex (msg : List Nat) : String :=
  hexEncode (sha256Bytes msg)

/-! ## Findings (`sdk.ResponseBuilder.Finding`) -/

/-- The SDK severity constants used by the plugin. -/
inductive Severity where
  | critical
  | high
  | medium
  | low
  deriving DecidableEq, Repr

/-- The SDK confidence constants used by the plugin. -/
inductive Confidence where
  | high
  | medium
  | low
  deriving DecidableEq, Repr

/-- One structured finding: rule id, severity, confidence, message,
location (`At(path, startLine, endLine)`) and metadata key/value pairs in
the order the code attaches them. -/
structure Finding where
  ruleId : String
  severity : Severity
  confidence : Confidence
  message : String
  path : String
  startLine : Nat
  endLine : Nat
  metadata : List (String × String)
  deriving DecidableEq, Repr

/-- Metadata lookup on a finding. -/
def metaLookup (f : Finding) (k : String) : Option String :=
  lookupAssoc f.metadata k

/-! ## Fixed tables of the scanner -/

/-- Model of `releaseArtifactExtensions`. -/
def releaseArtifactExtensions : List String :=
  [".tar.gz", ".tgz", ".zip", ".tar.bz2", ".tar.xz", ".deb", ".rpm", ".whl",
   ".gem", ".jar", ".war", ".apk"]

/-- Model of `signatureExtensions`. -/
def signatureExtensions : List String :=
  [".sig", ".asc", ".sign", ".gpg", ".minisig"]

/-- Model of `checksumExtensions`. -/
def checksumExtensions : List String :=
  [".sha256", ".sha512", ".sha256sum", ".sha512sum", ".md5", ".md5sum"]

/-- Model of `checksumFileNames`. -/
def checksumFileNames : List String :=
  ["SHA256SUMS", "SHA512SUMS", "CHECKSUMS", "checksums.txt", "CHECKSUMS.txt"]

/-- Model of `lockfileNames`. -/
def lockfileNames : List String :=
  ["package-lock.json", "yarn.lock", "go.sum", "Gemfile.lock", "poetry.lock",
   "Cargo.lock", "composer.lock"]

/-- Model of `skippedDirs`. -/
def skippedDirs : List String :=
  [".git", "vendor", "node_modules", "__pycache__", ".venv"]

/-- Model of `isReleaseArtifact`: the lower-cased name ends with a recognized
release-artifact extension. -/
def isReleaseArtifact (name : String) : Bool :=
  releaseArtifactExtensions.any (fun ext => strEndsWith (asciiToLower name) ext)

/-- Model of `hasCompanionFile`: some `dir/name+ext` is in the indexed file set.
(The Go loop ranges over a map; only existence matters, so list order is
irrelevant.) -/
def hasCompanionFile (name dir : String) (fileSet : List String) (extensions : List String) : Bool :=
  extensions.any (fun ext => fileSet.contains (joinPath dir (name ++ ext)))

/-! ## Scan environment

`os.ReadFile`/`os.Open` are modelled by an explicit read function
(`none` = the file cannot be read), and `json.Unmarshal` into the
`npmLockfile` struct by an abstract parse function returning the
`packages` map as an association list (`none` = the document fails to
parse; Go map iteration order makes the list order arbitrary). -/

/-- One entry of the `packages` map of `package-lock.json`
(the `npmLockfile` struct). -/
structure NpmPkg where
  version : String
  resolved : String
  integrity : String
  deriving DecidableEq, Repr

/-- The filesystem/JSON environment one scan runs against. -/
structure ScanEnv where
  read : String → Option (List Nat)
  parseNpm : List Nat → Option (List (String × NpmPkg))

/-! ## Rule A/B: missing checksum and unsigned artifact -/

/-- The `ARTINT-001` finding `checkMissingChecksum` emits. -/
def missingChecksumFinding (path name : String) : Finding :=
  { ruleId := "ARTINT-001", severity := Severity.high, confidence := Confidence.high,
    message := "Release artifact " ++ name ++ " has no corresponding checksum file",
    path := path, startLine := 0, endLine := 0,
    metadata := [("artifact", name), ("type", "missing_checksum")] }

/-- Model of `checkMissingChecksum`: report a release artifact with neither a
per-file checksum companion nor a bulk checksum manifest in its directory. -/
def checkMissingChecksum (path name dir : String) (fileSet : List String) : List Finding :=
  if hasCompanionFile name dir fileSet checksumExtensions then []
  else if checksumFileNames.any (fun csName => fileSet.contains (joinPath dir csName)) then []
  else [missingChecksumFinding path name]

/-- The `ARTINT-002` finding `checkUnsignedArtifact` emits. -/
def unsignedArtifactFinding (path name : String) : Finding :=
  { ruleId := "ARTINT-002", severity := Severity.medium, confidence := Confidence.medium,
    message := "Release artifact " ++ name ++ " has no signature file (.sig, .asc)",
    path := path, startLine := 0, endLine := 0,
    metadata := [("artifact", name), ("type", "unsigned_artifact")] }

/-- Model of `checkUnsignedArtifact`: report a release artifact with no signature
companion. -/
def checkUnsignedArtifact (path name dir : String) (fileSet : List String) : List Finding :=
  if hasCompanionFile name dir fileSet signatureExtensions then []
  else [unsignedArtifactFinding path name]

/-! ## Rule C: checksum-manifest verification -/

/-- Does the (trimmed) line start with the `#` comment marker? -/
def startsWithHashMark (s : String) : Bool :=
  match s.toList with
  | c :: _ => c == '#'
  | [] => false

/-- Submatch extraction of the Go regexp `reChecksumLine`, which anchors a
hexadecimal run of 32 to 128 characters, then one or more white space
characters, then a non-empty remainder captured to the end of the line.
The leftmost-first semantics of the anchored pattern on a line with no
trailing white space and no newline reduce to exactly this greedy
decomposition; `processChecksumLine` only applies it to
`trimSpace`-trimmed scanner lines, which satisfy both side conditions. -/
def parseChecksumLine (s : String) : Option (String × String) :=
  let cs := s.toList
  let hexRun := cs.takeWhile isHexChar
  if 32 ≤ hexRun.length ∧ hexRun.length ≤ 128 then
    let rest := cs.drop hexRun.length
    let ws := rest.takeWhile isRegexSpace
    let rem := rest.drop ws.length
    if 1 ≤ ws.length ∧ rem ≠ [] then some (String.mk hexRun, String.mk rem) else none
  else none

/-- The `ARTINT-003` checksum-mismatch finding, message truncation
included. -/
def mismatchFinding (checksumFilePath : String) (lineNum : Nat)
    (referencedFile declaredHash actualHash : String) : Finding :=
  { ruleId := "ARTINT-003", severity := Severity.critical, confidence := Confidence.high,
    message := "Checksum mismatch for " ++ referencedFile ++ ": declared=" ++
      (strTake declaredHash 16 ++ "...") ++ " actual=" ++ (strTake actualHash 16 ++ "..."),
    path := checksumFilePath, startLine := lineNum, endLine := lineNum,
    metadata := [("file", referencedFile), ("type", "checksum_mismatch")] }

/-- The body of the `checkChecksumMismatches` scanner loop for one line
(line number `n`): trim, skip blanks and comments, match the checksum
pattern, resolve the referenced file against the manifest directory after
stripping a leading `*`, and for 64-character declared hashes compare the
SHA-256 digest of the bytes of the file. -/
def processChecksumLine (env : ScanEnv) (dir checksumFilePath : String) (n : Nat)
    (raw : String) : Option Finding :=
  let line := trimSpace raw
  if line = "" then none
  else if startsWithHashMark line then none
  else
    match parseChecksumLine line with
    | none => none
    | some (hx, fname) =>
      let declaredHash := asciiToLower hx
      let referencedFile := trimStar (trimSpace fname)
      match env.read (joinPath dir referencedFile) with
      | none => none
      | some data =>
        if declaredHash.length = 64 then
          if sha256Hex data ≠ declaredHash then
            some (mismatchFinding checksumFilePath n referencedFile declaredHash (sha256Hex data))
          else none
        else none

/-- The scanner loop of `checkChecksumMismatches` over the remaining lines,
starting at line number `n`. -/
def checksumLines (env : ScanEnv) (dir checksumFilePath : String) : Nat → List String → List Finding
  | _, [] => []
  | n, raw :: rest =>
    (processChecksumLine env dir checksumFilePath n raw).toList ++
      checksumLines env dir checksumFilePath (n + 1) rest

/-- Model of `checkChecksumMismatches`: verify a checksum manifest file; an
unopenable manifest yields no findings. -/
def checkChecksumMismatches (env : ScanEnv) (checksumFilePath dir : String) : List Finding :=
  match env.read checksumFilePath with
  | none => []
  | some bytes => checksumLines env dir checksumFilePath 1 (linesOf bytes)

/-! ## Lockfile auditing -/

/-- The `ARTINT-003` missing-integrity finding of
`checkNPMLockfileIntegrity`. -/
def npmMissingIntegrityFinding (filePath pkgPath version : String) : Finding :=
  { ruleId := "ARTINT-003", severity := Severity.critical, confidence := Confidence.high,
    message := "Lockfile entry missing integrity hash: " ++ pkgPath ++ "@" ++ version,
    path := filePath, startLine := 0, endLine := 0,
    metadata := [("package", pkgPath), ("version", version), ("type", "missing_integrity")] }

/-- The per-entry decision of `checkNPMLockfileIntegrity`: skip the root
entry (empty key), flag an entry with empty integrity and non-empty
resolved URL. -/
def npmEntryCheck (filePath : String) (kp : String × NpmPkg) : Option Finding :=
  if kp.1 = "" then none
  else if kp.2.integrity = "" ∧ kp.2.resolved ≠ "" then
    some (npmMissingIntegrityFinding filePath kp.1 kp.2.version)
  else none

/-- Model of `checkNPMLockfileIntegrity`: flag every non-root package entry with a
resolved URL but an empty integrity hash; an unreadable or unparseable
lockfile yields no findings. -/
def checkNPMLockfileIntegrity (env : ScanEnv) (filePath : String) : List Finding :=
  match env.read filePath with
  | none => []
  | some data =>
    match env.parseNpm data with
    | none => []
    | some pkgs => pkgs.filterMap (npmEntryCheck filePath)

/-- Maximal runs of non-`\s` characters, as the three `\S+` groups of
`reGoSumLine` carve a line up. -/
def splitTokensAux : List Char → List Char → List String
  | [], cur => if cur = [] then [] else [String.mk cur.reverse]
  | c :: cs, cur =>
    if isRegexSpace c then
      if cur = [] then splitTokensAux cs []
      else String.mk cur.reverse :: splitTokensAux cs []
    else splitTokensAux cs (c :: cur)

/-- Tokenize a line at white space. -/
def splitTokens (cs : List Char) : List String :=
  splitTokensAux cs []

/-- Does the token start with `h1:` followed by at least one character?
(All its characters are non-space by construction, matching `h1:\S+`.) -/
def startsWithH1 (s : String) : Bool :=
  match s.toList with
  | 'h' :: '1' :: ':' :: _ :: _ => true
  | _ => false

/-- Submatch extraction of the anchored Go regexp
`reGoSumLine = three \S+ tokens separated by \s+, the third prefixed h1:`
on a single trimmed line: exactly three white-space-separated tokens, the
third of the shape `h1:` plus a non-empty suffix. -/
def parseGoSumLine (s : String) : Option (String × String × String) :=
  match splitTokens s.toList with
  | [m, v, h] => if startsWithH1 h then some (m, v, h) else none
  | _ => none

/-- The `ARTINT-003` conflicting-duplicate finding of
`checkGoSumIntegrity`. -/
def goSumConflictFinding (filePath : String) (lineNum : Nat) (module ver : String) : Finding :=
  { ruleId := "ARTINT-003", severity := Severity.critical, confidence := Confidence.high,
    message := "Duplicate go.sum entry with different hash for " ++ (module ++ "@" ++ ver),
    path := filePath, startLine := lineNum, endLine := lineNum,
    metadata := [("module", module), ("version", ver), ("type", "checksum_mismatch")] }

/-- The conflict check of `checkGoSumIntegrity` for one matched line: a
finding exactly when the key was seen before with a different hash. -/
def goSumEmit (filePath : String) (n : Nat) (seen : List (String × String))
    (module ver hash : String) : List Finding :=
  match lookupAssoc seen (module ++ "@" ++ ver) with
  | some existing => if existing ≠ hash then [goSumConflictFinding filePath n module ver] else []
  | none => []

/-- The scanner loop of `checkGoSumIntegrity`: line number, the
`module@version -> hash` map seen so far, remaining lines.  A key seen
again with a different hash is flagged at the later line; the map is
updated to the newest hash either way. -/
def goSumLines (filePath : String) : Nat → List (String × String) → List String → List Finding
  | _, _, [] => []
  | n, seen, raw :: rest =>
    let line := trimSpace raw
    if line = "" then goSumLines filePath (n + 1) seen rest
    else
      match parseGoSumLine line with
      | none => goSumLines filePath (n + 1) seen rest
      | some (module, ver, hash) =>
        goSumEmit filePath n seen module ver hash ++
          goSumLines filePath (n + 1) (updateAssoc seen (module ++ "@" ++ ver) hash) rest

/-- Model of `checkGoSumIntegrity`: detect duplicate `go.sum` entries with
conflicting hashes; an unopenable file yields no findings. -/
def checkGoSumIntegrity (env : ScanEnv) (filePath : String) : List Finding :=
  match env.read filePath with
  | none => []
  | some bytes => goSumLines filePath 1 [] (linesOf bytes)

/-- Model of `checkLockfileIntegrity`: dispatch on the exact base name; only
`package-lock.json` and `go.sum` have checks. -/
def checkLockfileIntegrity (env : ScanEnv) (filePath : String) : List Finding :=
  let name := baseName filePath
  if name = "package-lock.json" then checkNPMLockfileIntegrity env filePath
  else if name = "go.sum" then checkGoSumIntegrity env filePath
  else []

/-! ## The per-file dispatch and the scan loop of `handleScan` -/

/-- The checks `handleScan` runs for one indexed file: classify by name
and dispatch to the artifact, checksum-manifest and lockfile checkers. -/
def checksForFile (env : ScanEnv) (fileSet : List String) (path : String) : List Finding :=
  let name := baseName path
  let dir := dirName path
  (if isReleaseArtifact name then
      checkMissingChecksum path name dir fileSet ++ checkUnsignedArtifact path name dir fileSet
    else []) ++
  (if checksumFileNames.contains name then checkChecksumMismatches env path dir else []) ++
  (if lockfileNames.contains name then checkLockfileIntegrity env path else [])

/-- All findings of one uncancelled scan over an indexed file list (the
list doubles as the membership set for companion lookups). -/
def scanFiles (env : ScanEnv) (files : List String) : List Finding :=
  files.flatMap (checksForFile env files)

/-! ## The cancellable walk of `handleScan`

The directory tree is a value: a file, or a directory whose child list is
`none` when `ReadDir` fails on it.  Cancellation is the cooperative
`context.Canceled` signal the `signal.NotifyContext` call of this program produces:
`cancelAt = some k` means `ctx.Err()` becomes non-nil at the `k`-th check
(each callback invocation and each per-file loop iteration checks once). -/

/-- A directory-tree value. -/
inductive FsEntry where
  | file (name : String)
  | dir (name : String) (entries : Option (List FsEntry))
  deriving Repr

/-- The base name of an entry. -/
def entryName : FsEntry → String
  | .file name => name
  | .dir name _ => name

/-- Has the cancellation signal arrived by check number `t`? -/
def ctxDone (cancelAt : Option Nat) (t : Nat) : Bool :=
  match cancelAt with
  | none => false
  | some k => k ≤ t

/-- The only error value the `WalkDir` callback ever returns:
`ctx.Err() = context.Canceled` (`filepath.SkipDir` is consumed by the walk
itself, and the callback swallows traversal errors by returning nil). -/
inductive GoError where
  | canceled
  deriving DecidableEq, Repr

mutual
/-- Model of `filepath.WalkDir` restricted to the callback of the plugin, at one entry
whose own walk path is `epath`: returns the advanced check counter, the
regular files collected, and the error the walk aborts with, if any.
An unreadable directory produces a second callback invocation carrying
the `ReadDir` error, which the callback answers with nil, so the walk
continues past it. -/
def walkEntry (cancelAt : Option Nat) (t : Nat) (epath : String) :
    FsEntry → Nat × List String × Option GoError
  | .file _ =>
    if ctxDone cancelAt t then (t + 1, [], some GoError.canceled)
    else (t + 1, [epath], none)
  | .dir name sub =>
    if ctxDone cancelAt t then (t + 1, [], some GoError.canceled)
    else if skippedDirs.contains name then (t + 1, [], none)
    else
      match sub with
      | none => (t + 1, [], none)
      | some entries => walkList cancelAt (t + 1) epath entries

/-- Walk the children of a directory whose walk path is `dpath` in order,
stopping at the first aborting error. -/
def walkList (cancelAt : Option Nat) (t : Nat) (dpath : String) :
    List FsEntry → Nat × List String × Option GoError
  | [] => (t, [], none)
  | e :: es =>
    match walkEntry cancelAt t (joinPath dpath (entryName e)) e with
    | (t', fs, some err) => (t', fs, some err)
    | (t', fs, none) =>
      match walkList cancelAt t' dpath es with
      | (t'', fs₂, r) => (t'', fs ++ fs₂, r)
end

/-- The per-file loop of `handleScan`: break as soon as the cancellation
signal is observed, otherwise check the file and continue. -/
def scanLoop (env : ScanEnv) (cancelAt : Option Nat) (t : Nat) (allFiles : List String) :
    List String → List Finding
  | [] => []
  | p :: ps =>
    if ctxDone cancelAt t then []
    else checksForFile env allFiles p ++ scanLoop env cancelAt (t + 1) allFiles ps

/-- The error `handleScan` would propagate out of the walk. -/
inductive ScanErr where
  | walkFailed
  deriving DecidableEq, Repr

/-- Model of `handleScan`: an empty workspace root answers immediately; a root that
cannot be stat-ed gets its error swallowed by the callback, leaving no
files; otherwise the tree is walked (`context.Canceled` is not treated as
a failure) and every collected file is checked in order. -/
def handleScan (cancelAt : Option Nat) (rootStat : Option FsEntry) (rootPath : String)
    (env : ScanEnv) : Except ScanErr (List Finding) :=
  if rootPath = "" then .ok []
  else
    match rootStat with
    | none => .ok []
    | some root =>
      match walkEntry cancelAt 0 rootPath root with
      | (t, files, werr) =>
        if werr ≠ none ∧ werr ≠ some GoError.canceled then .error ScanErr.walkFailed
        else .ok (scanLoop env cancelAt t files files)

/-! ## Fidelity checks of the parsing layer

The vertical tab U+000B separates the two regexp character classes the
program relies on: RE2 `\s` rejects it while `unicode.IsSpace` accepts
it, so a `\v` inside a line is token text for both anchored patterns even
though `strings.TrimSpace` would trim it at the ends.  And the scanner
never yields a line at or above the 64 KiB token limit. -/

theorem regexSpace_excludes_vertical_tab :
    isRegexSpace (Char.ofNat 11) = false ∧ isUniSpace (Char.ofNat 11) = true := by
  decide

theorem parseChecksumLine_rejects_vertical_tab :
    parseChecksumLine (String.mk (List.replicate 64 '0' ++ [Char.ofNat 11, 'f'])) = none := by
  decide

theorem parseGoSumLine_rejects_vertical_tab :
    parseGoSumLine (String.mk ('m' :: Char.ofNat 11 :: ('v' :: '1' :: ' ' :: 'h' :: '1' :: ':' :: 'x' :: []))) = none ∧
    splitTokens ('m' :: Char.ofNat 11 :: ('v' :: '1' :: ' ' :: 'h' :: '1' :: ':' :: 'x' :: []))
      = [String.mk ('m' :: Char.ofNat 11 :: ('v' :: '1' :: [])), "h1:x"] := by
  refine ⟨by decide, by decide⟩

theorem linesOf_below_token_limit (bytes : List Nat) :
    ∀ raw ∈ linesOf bytes, raw.length < maxScanTokenSize := by
  intro raw hraw
  unfold linesOf at hraw
  by_cases hb : bytes = []
  · rw [if_pos hb] at hraw
    simp at hraw
  rw [if_neg hb] at hraw
  simp only [List.mem_map] at hraw
  obtain ⟨chunk, hchunk, hmk⟩ := hraw
  have hlen : (chunk.length < maxScanTokenSize) = true := by
    have := List.mem_takeWhile_imp hchunk
    simpa using this
  subst hmk
  have h1 : (strOfBytes (dropTrailCR chunk)).length = (dropTrailCR chunk).length := by
    unfold strOfBytes
    show (String.mk ((dropTrailCR chunk).map Char.ofNat)).length = _
    rw [show (String.mk ((dropTrailCR chunk).map Char.ofNat)).length
      = ((dropTrailCR chunk).map Char.ofNat).length from rfl, List.length_map]
  have h2 : (dropTrailCR chunk).length ≤ chunk.length := by
    unfold dropTrailCR
    by_cases hcr : chunk.getLast? = some 13
    · rw [if_pos hcr]
      exact Nat.le_trans (List.length_dropLast chunk ▸ Nat.sub_le _ _) (Nat.le_refl _)
    · rw [if_neg hcr]
  rw [h1]
  have := of_decide_eq_true (by simpa using hlen)
  omega

/-! ## Lemmas about the checksum-manifest verifier -/

theorem parseChecksumLine_ne_empty {s : String} {p : String × String}
    (h : parseChecksumLine s = some p) : ¬ s = "" := by
  intro he
  have h0 : parseChecksumLine ("") = none := by decide
  rw [he, h0] at h
  exact Option.noConfusion h

theorem parseChecksumLine_not_hashmark {s : String} {p : String × String}
    (h : parseChecksumLine s = some p) : startsWithHashMark s = false := by
  unfold startsWithHashMark
  cases hs : s.toList with
  | nil => rfl
  | cons c rest =>
    show (c == '#') = false
    by_cases hc : c = '#'
    · exfalso
      subst hc
      simp only [parseChecksumLine, hs] at h
      simp [List.takeWhile_cons, (by decide : isHexChar '#' = false)] at h
    · exact beq_eq_false_iff_ne.mpr hc

/-- Inversion: a finding produced for one manifest line is the mismatch
finding at that line number, and all its emission conditions hold. -/
theorem processChecksumLine_some {env : ScanEnv} {dir cpath : String} {n : Nat}
    {raw : String} {f : Finding}
    (h : processChecksumLine env dir cpath n raw = some f) :
    ∃ hx fname data,
      parseChecksumLine (trimSpace raw) = some (hx, fname) ∧
      env.read (joinPath dir (trimStar (trimSpace fname))) = some data ∧
      (asciiToLower hx).length = 64 ∧ sha256Hex data ≠ asciiToLower hx ∧
      f = mismatchFinding cpath n (trimStar (trimSpace fname)) (asciiToLower hx) (sha256Hex data) := by
  unfold processChecksumLine at h
  by_cases h1 : trimSpace raw = ""
  · simp [h1] at h
  by_cases h2 : startsWithHashMark (trimSpace raw) = true
  · simp [h1, h2] at h
  simp only [h1, if_false, Bool.not_eq_true] at h
  rw [if_neg (by simp [Bool.not_eq_true] at h2; simp [h2])] at h
  cases hp : parseChecksumLine (trimSpace raw) with
  | none => rw [hp] at h; exact Option.noConfusion h
  | some pr =>
    obtain ⟨hx, fname⟩ := pr
    rw [hp] at h
    simp only [] at h
    cases hr : env.read (joinPath dir (trimStar (trimSpace fname))) with
    | none => rw [hr] at h; exact Option.noConfusion h
    | some data =>
      rw [hr] at h
      simp only [] at h
      by_cases h64 : (asciiToLower hx).length = 64
      · rw [if_pos h64] at h
        by_cases hne : sha256Hex data = asciiToLower hx
        · simp [hne] at h
        · rw [if_pos hne] at h
          exact ⟨hx, fname, data, rfl, hr, h64, hne, (Option.some.inj h).symm⟩
      · rw [if_neg h64] at h
        exact Option.noConfusion h

/-- Computation: under the emission conditions the line produces exactly
the mismatch finding. -/
theorem processChecksumLine_eq_some {env : ScanEnv} {dir cpath : String} {n : Nat}
    {raw hx fname : String} {data : List Nat}
    (hp : parseChecksumLine (trimSpace raw) = some (hx, fname))
    (hr : env.read (joinPath dir (trimStar (trimSpace fname))) = some data)
    (h64 : (asciiToLower hx).length = 64)
    (hne : sha256Hex data ≠ asciiToLower hx) :
    processChecksumLine env dir cpath n raw
      = some (mismatchFinding cpath n (trimStar (trimSpace fname)) (asciiToLower hx) (sha256Hex data)) := by
  have h1 := parseChecksumLine_ne_empty hp
  have h2 := parseChecksumLine_not_hashmark hp
  unfold processChecksumLine
  simp [h1, h2, hp, hr, h64, hne]

/-- Computation: an unreadable referenced file silences the line. -/
theorem processChecksumLine_eq_none {env : ScanEnv} {dir cpath : String} {n : Nat}
    {raw hx fname : String}
    (hp : parseChecksumLine (trimSpace raw) = some (hx, fname))
    (hr : env.read (joinPath dir (trimStar (trimSpace fname))) = none) :
    processChecksumLine env dir cpath n raw = none := by
  have h1 := parseChecksumLine_ne_empty hp
  have h2 := parseChecksumLine_not_hashmark hp
  unfold processChecksumLine
  simp [h1, h2, hp, hr]

/-- A blank line produces nothing. -/
theorem processChecksumLine_blank {env : ScanEnv} {dir cpath : String} {n : Nat} :
    processChecksumLine env dir cpath n ("") = none := by
  unfold processChecksumLine
  simp [trimSpace]

/-- Line numbers of emitted findings never fall below the running counter. -/
theorem checksumLines_startLine_ge {env : ScanEnv} {dir cpath : String} :
    ∀ (ls : List String) (n : Nat) (f : Finding),
      f ∈ checksumLines env dir cpath n ls → n ≤ f.startLine := by
  intro ls
  induction ls with
  | nil => intro n f hf; simp [checksumLines] at hf
  | cons raw rest ih =>
    intro n f hf
    simp only [checksumLines, List.mem_append] at hf
    rcases hf with hf | hf
    · rw [Option.mem_toList, Option.mem_def] at hf
      obtain ⟨_, _, _, _, _, _, _, hfe⟩ := processChecksumLine_some hf
      subst hfe
      exact Nat.le_refl n
    · exact Nat.le_trans (Nat.le_succ n) (ih (n + 1) f hf)

/-- Findings at line number `n + i` come exactly from the `i`-th remaining
line. -/
theorem checksumLines_filter {env : ScanEnv} {dir cpath : String} :
    ∀ (ls : List String) (i n : Nat) (raw : String), ls[i]? = some raw →
      (checksumLines env dir cpath n ls).filter (fun f => f.startLine == n + i)
        = (processChecksumLine env dir cpath (n + i) raw).toList := by
  intro ls
  induction ls with
  | nil => intro i n raw h; simp at h
  | cons hd rest ih =>
    intro i n raw h
    cases i with
    | zero =>
      rw [List.getElem?_cons_zero, Option.some.injEq] at h
      subst h
      simp only [checksumLines, List.filter_append, Nat.add_zero]
      have h2 : (checksumLines env dir cpath (n + 1) rest).filter (fun f => f.startLine == n) = [] := by
        rw [List.filter_eq_nil_iff]
        intro f hf
        have := checksumLines_startLine_ge rest (n + 1) f hf
        simp only [beq_iff_eq]
        omega
      rw [h2, List.append_nil]
      cases hp : processChecksumLine env dir cpath n hd with
      | none => simp
      | some f =>
        obtain ⟨_, _, _, _, _, _, _, hfe⟩ := processChecksumLine_some hp
        subst hfe
        simp [mismatchFinding, List.filter_cons]
    | succ j =>
      rw [List.getElem?_cons_succ] at h
      simp only [checksumLines, List.filter_append]
      have h1 : (processChecksumLine env dir cpath n hd).toList.filter
          (fun f => f.startLine == n + (j + 1)) = [] := by
        cases hp : processChecksumLine env dir cpath n hd with
        | none => simp
        | some f =>
          obtain ⟨_, _, _, _, _, _, _, hfe⟩ := processChecksumLine_some hp
          subst hfe
          rw [Option.toList_some, List.filter_eq_nil_iff]
          intro g hg
          rw [List.mem_singleton] at hg
          subst hg
          simp only [mismatchFinding, beq_iff_eq]
          omega
      rw [h1, List.nil_append]
      have e : n + (j + 1) = (n + 1) + j := by omega
      simp only [e]
      exact ih j (n + 1) raw h

/-- Replacing one silent line by a blank one leaves the output of the verifier
unchanged (the remaining lines keep their line numbers). -/
theorem checksumLines_set_blank {env : ScanEnv} {dir cpath : String} :
    ∀ (ls : List String) (i n : Nat) (raw : String), ls[i]? = some raw →
      processChecksumLine env dir cpath (n + i) raw = none →
      checksumLines env dir cpath n (ls.set i ("")) = checksumLines env dir cpath n ls := by
  intro ls
  induction ls with
  | nil => intro i n raw h; simp at h
  | cons hd rest ih =>
    intro i n raw h hnone
    cases i with
    | zero =>
      rw [List.getElem?_cons_zero, Option.some.injEq] at h
      subst h
      rw [Nat.add_zero] at hnone
      simp only [List.set_cons_zero, checksumLines, hnone, processChecksumLine_blank,
        Option.toList_none, List.nil_append]
    | succ j =>
      rw [List.getElem?_cons_succ] at h
      rw [List.set_cons_succ]
      simp only [checksumLines]
      congr 1
      exact ih j (n + 1) raw h (by rw [show (n + 1) + j = n + (j + 1) by omega]; exact hnone)

/-! ## Claim C1 -/

/-- Claim C1: For a checksum-manifest line matching the hash/filename
pattern, an `ARTINT-003` mismatch finding (Critical, High, located at the
manifest and that line number) is emitted if and only if the declared
hash has exactly 64 characters, the referenced file (resolved against the
directory of the manifest after stripping a leading `*`) is readable, and the
SHA-256 digest of its bytes differs from the lower-cased declared hash;
other declared-hash lengths are parsed but never verified. -/
theorem checksum_mismatch_iff (env : ScanEnv) (cpath dir : String) (bytes : List Nat)
    (i : Nat) (raw hx fname : String)
    (hread : env.read cpath = some bytes)
    (hline : (linesOf bytes)[i]? = some raw)
    (hparse : parseChecksumLine (trimSpace raw) = some (hx, fname)) :
    (∃ f ∈ checkChecksumMismatches env cpath dir,
        f.ruleId = "ARTINT-003" ∧ f.severity = Severity.critical ∧
        f.confidence = Confidence.high ∧ f.path = cpath ∧
        f.startLine = i + 1 ∧ f.endLine = i + 1 ∧
        metaLookup f ("type") = some "checksum_mismatch") ↔
      ((asciiToLower hx).length = 64 ∧
        ∃ data, env.read (joinPath dir (trimStar (trimSpace fname))) = some data ∧
          sha256Hex data ≠ asciiToLower hx) := by
  have hunf : checkChecksumMismatches env cpath dir
      = checksumLines env dir cpath 1 (linesOf bytes) := by
    unfold checkChecksumMismatches
    rw [hread]
  constructor
  · rintro ⟨f, hf, _, _, _, _, hstart, _, _⟩
    rw [hunf] at hf
    have hfmem : f ∈ (checksumLines env dir cpath 1 (linesOf bytes)).filter
        (fun g => g.startLine == 1 + i) := by
      refine List.mem_filter.mpr ⟨hf, ?_⟩
      simp only [beq_iff_eq, hstart]
      omega
    rw [checksumLines_filter (linesOf bytes) i 1 raw hline] at hfmem
    rw [Option.mem_toList, Option.mem_def] at hfmem
    obtain ⟨hx', fname', data, hp', hr', h64', hne', _⟩ := processChecksumLine_some hfmem
    rw [hparse, Option.some.injEq, Prod.mk.injEq] at hp'
    obtain ⟨e1, e2⟩ := hp'
    subst e1; subst e2
    exact ⟨h64', data, hr', hne'⟩
  · rintro ⟨h64, data, hr, hne⟩
    have hsome := @processChecksumLine_eq_some env dir cpath (1 + i) raw hx fname data hparse hr h64 hne
    refine ⟨mismatchFinding cpath (1 + i) (trimStar (trimSpace fname)) (asciiToLower hx)
      (sha256Hex data), ?_, ?_⟩
    · rw [hunf]
      have hfilter := @checksumLines_filter env dir cpath (linesOf bytes) i 1 raw hline
      rw [hsome] at hfilter
      have hmem : mismatchFinding cpath (1 + i) (trimStar (trimSpace fname)) (asciiToLower hx)
          (sha256Hex data) ∈ (checksumLines env dir cpath 1 (linesOf bytes)).filter
            (fun f => f.startLine == 1 + i) := by
        rw [hfilter]
        simp
      exact List.mem_of_mem_filter hmem
    · refine ⟨rfl, rfl, rfl, rfl, by simp only [mismatchFinding]; omega,
        by simp only [mismatchFinding]; omega, ?_⟩
      simp [metaLookup, mismatchFinding, lookupAssoc]

/-! ## Claim C6 -/

/-- Claim C6: If the file a manifest line references cannot be read, no
finding of any kind is emitted for that line, and verification of the
remaining lines is unaffected (blanking the line changes nothing). -/
theorem missing_referenced_file_skipped (env : ScanEnv) (cpath dir : String)
    (bytes : List Nat) (i : Nat) (raw hx fname : String)
    (hread : env.read cpath = some bytes)
    (hline : (linesOf bytes)[i]? = some raw)
    (hparse : parseChecksumLine (trimSpace raw) = some (hx, fname))
    (hmiss : env.read (joinPath dir (trimStar (trimSpace fname))) = none) :
    (∀ f ∈ checkChecksumMismatches env cpath dir, f.startLine ≠ i + 1) ∧
    checkChecksumMismatches env cpath dir
      = checksumLines env dir cpath 1 ((linesOf bytes).set i ("")) := by
  have hunf : checkChecksumMismatches env cpath dir
      = checksumLines env dir cpath 1 (linesOf bytes) := by
    unfold checkChecksumMismatches
    rw [hread]
  have hnone := @processChecksumLine_eq_none env dir cpath (1 + i) raw hx fname hparse hmiss
  constructor
  · intro f hf hstart
    rw [hunf] at hf
    have hfmem : f ∈ (checksumLines env dir cpath 1 (linesOf bytes)).filter
        (fun g => g.startLine == 1 + i) := by
      refine List.mem_filter.mpr ⟨hf, ?_⟩
      simp only [beq_iff_eq, hstart]
      omega
    rw [checksumLines_filter (linesOf bytes) i 1 raw hline, hnone] at hfmem
    simp at hfmem
  · rw [hunf]
    exact (checksumLines_set_blank (linesOf bytes) i 1 raw hline hnone).symm


/-! ## Lemmas about the go.sum auditor -/

theorem parseGoSumLine_ne_empty {s : String} {t : String × String × String}
    (h : parseGoSumLine s = some t) : ¬ s = "" := by
  intro he
  have h0 : parseGoSumLine ("") = none := by decide
  rw [he, h0] at h
  exact Option.noConfusion h

/-- The hash most recently recorded for `key` by the lines processed so
far (the last matching line wins, mirroring the repeated map overwrite in
`checkGoSumIntegrity`). -/
def lastGoSumHash : List String → String → Option String
  | [], _ => none
  | raw :: rest, key =>
    match lastGoSumHash rest key with
    | some h => some h
    | none =>
      match parseGoSumLine (trimSpace raw) with
      | some (m, v, h) => if m ++ "@" ++ v = key then some h else none
      | none => none

/-- Left-biased combination of two optional hashes. -/
def orOpt (a b : Option String) : Option String :=
  match a with
  | some x => some x
  | none => b

theorem orOpt_none_right (a : Option String) : orOpt a none = a := by
  cases a <;> rfl

/-- The conflict decision of the claim, as a function of the hash
previously recorded for the key of the line. -/
def conflictDecision (prev : Option String) (fp : String) (n : Nat) (m v h : String) : List Finding :=
  match prev with
  | some p => if p = h then [] else [goSumConflictFinding fp n m v]
  | none => []

/-- Model of `goSumEmit` rewritten as the conflict decision of the claim. -/
theorem goSumEmit_eq (fp : String) (n : Nat) (seen : List (String × String))
    (m v h : String) :
    goSumEmit fp n seen m v h
      = conflictDecision (lookupAssoc seen (m ++ "@" ++ v)) fp n m v h := by
  unfold goSumEmit conflictDecision
  cases lookupAssoc seen (m ++ "@" ++ v) with
  | none => rfl
  | some ex =>
    show (if ex ≠ h then [goSumConflictFinding fp n m v] else [])
      = if ex = h then [] else [goSumConflictFinding fp n m v]
    by_cases hne : ex = h
    · rw [if_neg (not_not_intro hne), if_pos hne]
    · rw [if_pos hne, if_neg hne]

/-- Every finding `goSumEmit` can produce is the conflict finding at its
own line number. -/
theorem goSumEmit_startLine {fp : String} {n : Nat} {seen : List (String × String)}
    {m v h : String} {f : Finding} (hf : f ∈ goSumEmit fp n seen m v h) :
    f = goSumConflictFinding fp n m v := by
  rw [goSumEmit_eq] at hf
  cases hlk : lookupAssoc seen (m ++ "@" ++ v) with
  | none => rw [hlk] at hf; simp [conflictDecision] at hf
  | some ex =>
    rw [hlk] at hf
    by_cases hne : ex = h
    · simp [conflictDecision, hne] at hf
    · simp [conflictDecision, hne] at hf
      exact hf

theorem goSumEmit_filter_self (fp : String) (n : Nat) (seen : List (String × String))
    (m v h : String) :
    (goSumEmit fp n seen m v h).filter (fun f => f.startLine == n)
      = goSumEmit fp n seen m v h := by
  rw [List.filter_eq_self]
  intro f hf
  rw [goSumEmit_startLine hf]
  simp [goSumConflictFinding]

theorem goSumEmit_filter_ne (fp : String) (n k : Nat) (seen : List (String × String))
    (m v h : String) (hk : k ≠ n) :
    (goSumEmit fp n seen m v h).filter (fun f => f.startLine == k) = [] := by
  rw [List.filter_eq_nil_iff]
  intro f hf
  rw [goSumEmit_startLine hf]
  simp only [goSumConflictFinding, beq_iff_eq]
  omega

/-- Line numbers of emitted conflict findings never fall below the running
counter. -/
theorem goSumLines_startLine_ge {fp : String} :
    ∀ (ls : List String) (n : Nat) (seen : List (String × String)) (f : Finding),
      f ∈ goSumLines fp n seen ls → n ≤ f.startLine := by
  intro ls
  induction ls with
  | nil => intro n seen f hf; simp [goSumLines] at hf
  | cons raw rest ih =>
    intro n seen f hf
    unfold goSumLines at hf
    by_cases hb : trimSpace raw = ""
    · rw [if_pos hb] at hf
      exact Nat.le_trans (Nat.le_succ n) (ih (n + 1) seen f hf)
    rw [if_neg hb] at hf
    cases hp : parseGoSumLine (trimSpace raw) with
    | none =>
      rw [hp] at hf
      exact Nat.le_trans (Nat.le_succ n) (ih (n + 1) seen f hf)
    | some t =>
      obtain ⟨m, v, h⟩ := t
      rw [hp] at hf
      rw [List.mem_append] at hf
      rcases hf with hf | hf
      · rw [goSumEmit_startLine hf]
        exact Nat.le_refl n
      · exact Nat.le_trans (Nat.le_succ n) (ih (n + 1) _ f hf)

/-- Conflict findings at line number `n + i` are exactly determined by the
`i`-th remaining line together with the hash last recorded for its key
before it (by an earlier remaining line, or failing that by the inherited
`seen` map). -/
theorem goSumLines_filter {fp : String} :
    ∀ (ls : List String) (i n : Nat) (seen : List (String × String)) (raw m v h : String),
      ls[i]? = some raw → parseGoSumLine (trimSpace raw) = some (m, v, h) →
      (goSumLines fp n seen ls).filter (fun f => f.startLine == n + i)
        = conflictDecision
            (orOpt (lastGoSumHash (ls.take i) (m ++ "@" ++ v))
              (lookupAssoc seen (m ++ "@" ++ v))) fp (n + i) m v h := by
  intro ls
  induction ls with
  | nil => intro i n seen raw m v h hl; simp at hl
  | cons hd rest ih =>
    intro i n seen raw m v h hl hp
    cases i with
    | zero =>
      rw [List.getElem?_cons_zero, Option.some.injEq] at hl
      subst hl
      have hb : ¬ trimSpace hd = "" := parseGoSumLine_ne_empty hp
      unfold goSumLines
      rw [if_neg hb, hp]
      simp only [Nat.add_zero, List.take_zero, lastGoSumHash, orOpt, List.filter_append]
      have htail : (goSumLines fp (n + 1) (updateAssoc seen (m ++ "@" ++ v) h) rest).filter
          (fun f => f.startLine == n) = [] := by
        rw [List.filter_eq_nil_iff]
        intro f hf
        have := goSumLines_startLine_ge rest (n + 1) _ f hf
        simp only [beq_iff_eq]
        omega
      rw [htail, List.append_nil, goSumEmit_filter_self, goSumEmit_eq]
    | succ j =>
      rw [List.getElem?_cons_succ] at hl
      have e : n + (j + 1) = (n + 1) + j := by omega
      unfold goSumLines
      by_cases hb : trimSpace hd = ""
      · have hp0 : parseGoSumLine (trimSpace hd) = none := by
          rw [hb]
          decide
        rw [if_pos hb]
        simp only [List.take_succ_cons, lastGoSumHash, hp0]
        rw [e, ih j (n + 1) seen raw m v h hl hp]
        cases lastGoSumHash (rest.take j) (m ++ "@" ++ v) <;> rfl
      rw [if_neg hb]
      cases hp0 : parseGoSumLine (trimSpace hd) with
      | none =>
        simp only [List.take_succ_cons, lastGoSumHash, hp0]
        rw [e, ih j (n + 1) seen raw m v h hl hp]
        cases lastGoSumHash (rest.take j) (m ++ "@" ++ v) <;> rfl
      | some t =>
        obtain ⟨m0, v0, h0⟩ := t
        rw [List.filter_append]
        rw [goSumEmit_filter_ne fp n (n + (j + 1)) seen m0 v0 h0 (by omega), List.nil_append]
        rw [e, ih j (n + 1) (updateAssoc seen (m0 ++ "@" ++ v0) h0) raw m v h hl hp]
        simp only [List.take_succ_cons, lastGoSumHash, hp0]
        rw [lookupAssoc_updateAssoc]
        cases hlast : lastGoSumHash (rest.take j) (m ++ "@" ++ v) with
        | some p => rfl
        | none =>
          by_cases hk : m0 ++ "@" ++ v0 = m ++ "@" ++ v
          · rw [if_pos hk, if_pos hk]
            rfl
          · rw [if_neg hk, if_neg hk]

/-! ## Claim C3 -/

/-- Claim C3: For every go.sum line matching the module/version/`h1:`-hash
pattern: the findings located at that line are empty when the key
`module@version` was not recorded before (first occurrence) or when its
most recently recorded hash equals the hash on the line, and are exactly the
one `ARTINT-003` conflict finding (Critical, High, metadata type
`checksum_mismatch`, located at that line number) when the most recently
recorded hash differs. -/
theorem gosum_duplicate_detection (env : ScanEnv) (fpath : String) (bytes : List Nat)
    (i : Nat) (raw m v h : String)
    (hread : env.read fpath = some bytes)
    (hline : (linesOf bytes)[i]? = some raw)
    (hparse : parseGoSumLine (trimSpace raw) = some (m, v, h)) :
    (checkGoSumIntegrity env fpath).filter (fun f => f.startLine == i + 1)
      = conflictDecision (lastGoSumHash ((linesOf bytes).take i) (m ++ "@" ++ v))
          fpath (i + 1) m v h := by
  unfold checkGoSumIntegrity
  rw [hread]
  have hmain := @goSumLines_filter fpath (linesOf bytes) i 1 [] raw m v h hline hparse
  have e : 1 + i = i + 1 := by omega
  simp only [e, lookupAssoc, orOpt_none_right] at hmain
  exact hmain

/-! ## Claim C9 -/

/-- A two-line go.sum whose composite keys collide although the
(module, version) pairs differ. -/
def goSumCollisionBytes : List Nat :=
  bytesOfAscii ("a@b c h1:xx" ++ "\n" ++ "a b@c h1:yy")

/-- Environment exposing only that go.sum file. -/
def goSumCollisionEnv : ScanEnv :=
  { read := fun p => if p = "go.sum" then some goSumCollisionBytes else none,
    parseNpm := fun _ => none }

/-- Claim C9: Keying the duplicate-detection map on the concatenation
`module + "@" + version` conflates distinct (module, version) pairs: on a
file with lines `a@b c h1:xx` and `a b@c h1:yy` the two parsed pairs
differ, yet their composite keys coincide, and the auditor emits an
`ARTINT-003` conflict finding at line 2 although no single
(module, version) pair occurs twice with differing hashes. -/
theorem gosum_key_collision :
    parseGoSumLine (trimSpace ("a@b c h1:xx")) = some ("a@b", "c", "h1:xx") ∧
    parseGoSumLine (trimSpace ("a b@c h1:yy")) = some ("a", "b@c", "h1:yy") ∧
    (("a@b", "c") : String × String) ≠ ("a", "b@c") ∧
    ("a@b" ++ "@" ++ "c" : String) = "a" ++ "@" ++ "b@c" ∧
    (checkGoSumIntegrity goSumCollisionEnv ("go.sum")).map
        (fun f => (f.ruleId, f.startLine, metaLookup f ("type")))
      = [("ARTINT-003", 2, some "checksum_mismatch")] := by
  refine ⟨by decide, by decide, by decide, by decide, by decide⟩

/-! ## Which findings each checker can emit -/

theorem checkMissingChecksum_mem {p name dir : String} {fileSet : List String} {f : Finding}
    (hf : f ∈ checkMissingChecksum p name dir fileSet) : f = missingChecksumFinding p name := by
  unfold checkMissingChecksum at hf
  by_cases h1 : hasCompanionFile name dir fileSet checksumExtensions = true
  · rw [if_pos h1] at hf
    simp at hf
  · rw [if_neg h1] at hf
    by_cases h2 : (checksumFileNames.any fun csName => fileSet.contains (joinPath dir csName)) = true
    · rw [if_pos h2] at hf
      simp at hf
    · rw [if_neg h2] at hf
      exact List.mem_singleton.mp hf

theorem checkUnsignedArtifact_mem {p name dir : String} {fileSet : List String} {f : Finding}
    (hf : f ∈ checkUnsignedArtifact p name dir fileSet) : f = unsignedArtifactFinding p name := by
  unfold checkUnsignedArtifact at hf
  by_cases h1 : hasCompanionFile name dir fileSet signatureExtensions = true
  · simp [h1] at hf
  · simp [h1] at hf
    exact hf

theorem checksumLines_mem {env : ScanEnv} {dir cpath : String} :
    ∀ (ls : List String) (n : Nat) (f : Finding), f ∈ checksumLines env dir cpath n ls →
      f.path = cpath ∧ f.ruleId = "ARTINT-003" := by
  intro ls
  induction ls with
  | nil => intro n f hf; simp [checksumLines] at hf
  | cons raw rest ih =>
    intro n f hf
    simp only [checksumLines, List.mem_append] at hf
    rcases hf with hf | hf
    · rw [Option.mem_toList, Option.mem_def] at hf
      obtain ⟨_, _, _, _, _, _, _, hfe⟩ := processChecksumLine_some hf
      subst hfe
      exact ⟨rfl, rfl⟩
    · exact ih (n + 1) f hf

theorem checkChecksumMismatches_mem {env : ScanEnv} {cpath dir : String} {f : Finding}
    (hf : f ∈ checkChecksumMismatches env cpath dir) :
    f.path = cpath ∧ f.ruleId = "ARTINT-003" := by
  unfold checkChecksumMismatches at hf
  cases hr : env.read cpath with
  | none => rw [hr] at hf; simp at hf
  | some bytes =>
    rw [hr] at hf
    exact checksumLines_mem (linesOf bytes) 1 f hf

theorem npmEntryCheck_mem {fp : String} {kp : String × NpmPkg} {f : Finding}
    (hf : npmEntryCheck fp kp = some f) :
    f = npmMissingIntegrityFinding fp kp.1 kp.2.version := by
  unfold npmEntryCheck at hf
  by_cases h1 : kp.1 = ""
  · simp [h1] at hf
  · rw [if_neg h1] at hf
    by_cases h2 : kp.2.integrity = "" ∧ kp.2.resolved ≠ ""
    · rw [if_pos h2, Option.some.injEq] at hf
      exact hf.symm
    · rw [if_neg h2] at hf
      exact Option.noConfusion hf

theorem checkNPMLockfileIntegrity_mem {env : ScanEnv} {fp : String} {f : Finding}
    (hf : f ∈ checkNPMLockfileIntegrity env fp) :
    f.path = fp ∧ f.ruleId = "ARTINT-003" := by
  unfold checkNPMLockfileIntegrity at hf
  cases hr : env.read fp with
  | none => rw [hr] at hf; simp at hf
  | some data =>
    rw [hr] at hf
    simp only [] at hf
    cases hp : env.parseNpm data with
    | none => rw [hp] at hf; simp at hf
    | some pkgs =>
      rw [hp] at hf
      simp only [List.mem_filterMap] at hf
      obtain ⟨kp, _, hkp⟩ := hf
      rw [npmEntryCheck_mem hkp]
      exact ⟨rfl, rfl⟩

theorem goSumLines_mem {fp : String} :
    ∀ (ls : List String) (n : Nat) (seen : List (String × String)) (f : Finding),
      f ∈ goSumLines fp n seen ls → f.path = fp ∧ f.ruleId = "ARTINT-003" := by
  intro ls
  induction ls with
  | nil => intro n seen f hf; simp [goSumLines] at hf
  | cons raw rest ih =>
    intro n seen f hf
    unfold goSumLines at hf
    by_cases hb : trimSpace raw = ""
    · rw [if_pos hb] at hf
      exact ih (n + 1) seen f hf
    rw [if_neg hb] at hf
    cases hp : parseGoSumLine (trimSpace raw) with
    | none =>
      rw [hp] at hf
      exact ih (n + 1) seen f hf
    | some t =>
      obtain ⟨m, v, h⟩ := t
      rw [hp] at hf
      rw [List.mem_append] at hf
      rcases hf with hf | hf
      · rw [goSumEmit_startLine hf]
        exact ⟨rfl, rfl⟩
      · exact ih (n + 1) _ f hf

theorem checkGoSumIntegrity_mem {env : ScanEnv} {fp : String} {f : Finding}
    (hf : f ∈ checkGoSumIntegrity env fp) : f.path = fp ∧ f.ruleId = "ARTINT-003" := by
  unfold checkGoSumIntegrity at hf
  cases hr : env.read fp with
  | none => rw [hr] at hf; simp at hf
  | some bytes =>
    rw [hr] at hf
    exact goSumLines_mem (linesOf bytes) 1 [] f hf

theorem checkLockfileIntegrity_mem {env : ScanEnv} {fp : String} {f : Finding}
    (hf : f ∈ checkLockfileIntegrity env fp) :
    f.path = fp ∧ f.ruleId = "ARTINT-003" := by
  unfold checkLockfileIntegrity at hf
  by_cases h1 : baseName fp = "package-lock.json"
  · rw [if_pos h1] at hf
    exact checkNPMLockfileIntegrity_mem hf
  · rw [if_neg h1] at hf
    by_cases h2 : baseName fp = "go.sum"
    · rw [if_pos h2] at hf
      exact checkGoSumIntegrity_mem hf
    · rw [if_neg h2] at hf
      simp at hf

/-- Every finding the per-file dispatch emits is located at the checked
file itself. -/
theorem checksForFile_mem {env : ScanEnv} {fileSet : List String} {q : String} {f : Finding}
    (hf : f ∈ checksForFile env fileSet q) : f.path = q := by
  unfold checksForFile at hf
  simp only [List.mem_append] at hf
  rcases hf with (hf | hf) | hf
  · by_cases h1 : isReleaseArtifact (baseName q) = true
    · rw [if_pos h1, List.mem_append] at hf
      rcases hf with hf | hf
      · rw [checkMissingChecksum_mem hf]; rfl
      · rw [checkUnsignedArtifact_mem hf]; rfl
    · rw [if_neg h1] at hf; simp at hf
  · by_cases h2 : checksumFileNames.contains (baseName q) = true
    · rw [if_pos h2] at hf
      exact (checkChecksumMismatches_mem hf).1
    · rw [if_neg h2] at hf; simp at hf
  · by_cases h3 : lockfileNames.contains (baseName q) = true
    · rw [if_pos h3] at hf
      exact (checkLockfileIntegrity_mem hf).1
    · rw [if_neg h3] at hf; simp at hf

/-! ## Locating the findings of one file inside the whole scan -/

/-- In a duplicate-free file list, the scan findings passing a predicate
that only findings of one file `p` can pass are exactly those of `p`. -/
theorem filter_flatMap_single {α : Type} (g : α → List Finding) (pred : Finding → Bool)
    (p : α) : ∀ (todo : List α), todo.Nodup → p ∈ todo →
    (∀ q ∈ todo, q ≠ p → ∀ f ∈ g q, pred f = false) →
    (todo.flatMap g).filter pred = (g p).filter pred := by
  intro todo
  induction todo with
  | nil => intro _ h; simp at h
  | cons q rest ih =>
    intro hnd hp hother
    rw [List.flatMap_cons, List.filter_append]
    by_cases hqp : q = p
    · subst hqp
      have hrest : (rest.flatMap g).filter pred = [] := by
        rw [List.filter_eq_nil_iff]
        intro f hf
        rw [List.mem_flatMap] at hf
        obtain ⟨q', hq', hfq'⟩ := hf
        have hq'q : q' ≠ q := by
          intro e
          subst e
          exact (List.nodup_cons.mp hnd).1 hq'
        rw [hother q' (List.mem_cons_of_mem _ hq') hq'q f hfq']
        simp
      rw [hrest, List.append_nil]
    · have hp' : p ∈ rest := by
        rcases List.mem_cons.mp hp with e | h
        · exact absurd e.symm hqp
        · exact h
      have hhead : (g q).filter pred = [] := by
        rw [List.filter_eq_nil_iff]
        intro f hf
        rw [hother q (List.mem_cons_self q rest) hqp f hf]
        simp
      rw [hhead, List.nil_append]
      exact ih (List.nodup_cons.mp hnd).2 hp'
        (fun q' hq' => hother q' (List.mem_cons_of_mem _ hq'))

/-- Within the checks of one file, the `ARTINT-001` findings are exactly the
missing-checksum ones. -/
theorem checksForFile_filter_001 (env : ScanEnv) (fileSet : List String) (q : String)
    (hart : isReleaseArtifact (baseName q) = true) :
    (checksForFile env fileSet q).filter (fun f => f.ruleId == "ARTINT-001")
      = checkMissingChecksum q (baseName q) (dirName q) fileSet := by
  unfold checksForFile
  rw [List.filter_append, List.filter_append, if_pos hart, List.filter_append]
  have hmiss : (checkMissingChecksum q (baseName q) (dirName q) fileSet).filter
      (fun f => f.ruleId == "ARTINT-001")
      = checkMissingChecksum q (baseName q) (dirName q) fileSet := by
    rw [List.filter_eq_self]
    intro f hf
    rw [checkMissingChecksum_mem hf]
    simp [missingChecksumFinding]
  have huns : (checkUnsignedArtifact q (baseName q) (dirName q) fileSet).filter
      (fun f => f.ruleId == "ARTINT-001") = [] := by
    rw [List.filter_eq_nil_iff]
    intro f hf
    rw [checkUnsignedArtifact_mem hf]
    simp [unsignedArtifactFinding]
  have hcs : ((if checksumFileNames.contains (baseName q) then
      checkChecksumMismatches env q (dirName q) else []).filter
        (fun f => f.ruleId == "ARTINT-001")) = [] := by
    rw [List.filter_eq_nil_iff]
    intro f hf
    by_cases h2 : checksumFileNames.contains (baseName q) = true
    · rw [if_pos h2] at hf
      rw [(checkChecksumMismatches_mem hf).2]
      decide
    · rw [if_neg h2] at hf
      simp at hf
  have hlk : ((if lockfileNames.contains (baseName q) then
      checkLockfileIntegrity env q else []).filter
        (fun f => f.ruleId == "ARTINT-001")) = [] := by
    rw [List.filter_eq_nil_iff]
    intro f hf
    by_cases h3 : lockfileNames.contains (baseName q) = true
    · rw [if_pos h3] at hf
      rw [(checkLockfileIntegrity_mem hf).2]
      decide
    · rw [if_neg h3] at hf
      simp at hf
  rw [hmiss, huns, hcs, hlk, List.append_nil, List.append_nil, List.append_nil]

/-- Within the checks of one file, the `ARTINT-002` findings are exactly the
unsigned-artifact ones. -/
theorem checksForFile_filter_002 (env : ScanEnv) (fileSet : List String) (q : String)
    (hart : isReleaseArtifact (baseName q) = true) :
    (checksForFile env fileSet q).filter (fun f => f.ruleId == "ARTINT-002")
      = checkUnsignedArtifact q (baseName q) (dirName q) fileSet := by
  unfold checksForFile
  rw [List.filter_append, List.filter_append, if_pos hart, List.filter_append]
  have hmiss : (checkMissingChecksum q (baseName q) (dirName q) fileSet).filter
      (fun f => f.ruleId == "ARTINT-002") = [] := by
    rw [List.filter_eq_nil_iff]
    intro f hf
    rw [checkMissingChecksum_mem hf]
    simp [missingChecksumFinding]
  have huns : (checkUnsignedArtifact q (baseName q) (dirName q) fileSet).filter
      (fun f => f.ruleId == "ARTINT-002")
      = checkUnsignedArtifact q (baseName q) (dirName q) fileSet := by
    rw [List.filter_eq_self]
    intro f hf
    rw [checkUnsignedArtifact_mem hf]
    simp [unsignedArtifactFinding]
  have hcs : ((if checksumFileNames.contains (baseName q) then
      checkChecksumMismatches env q (dirName q) else []).filter
        (fun f => f.ruleId == "ARTINT-002")) = [] := by
    rw [List.filter_eq_nil_iff]
    intro f hf
    by_cases h2 : checksumFileNames.contains (baseName q) = true
    · rw [if_pos h2] at hf
      rw [(checkChecksumMismatches_mem hf).2]
      decide
    · rw [if_neg h2] at hf
      simp at hf
  have hlk : ((if lockfileNames.contains (baseName q) then
      checkLockfileIntegrity env q else []).filter
        (fun f => f.ruleId == "ARTINT-002")) = [] := by
    rw [List.filter_eq_nil_iff]
    intro f hf
    by_cases h3 : lockfileNames.contains (baseName q) = true
    · rw [if_pos h3] at hf
      rw [(checkLockfileIntegrity_mem hf).2]
      decide
    · rw [if_neg h3] at hf
      simp at hf
  rw [hmiss, huns, hcs, hlk, List.append_nil, List.nil_append, List.append_nil]

/-- Model of `checkMissingChecksum`, restated with the companion/manifest
conditions. -/
theorem checkMissingChecksum_eq (p name dir : String) (fileSet : List String) :
    checkMissingChecksum p name dir fileSet
      = if (∀ ext ∈ checksumExtensions, joinPath dir (name ++ ext) ∉ fileSet) ∧
           (∀ csName ∈ checksumFileNames, joinPath dir csName ∉ fileSet)
        then [missingChecksumFinding p name] else [] := by
  unfold checkMissingChecksum
  by_cases h1 : hasCompanionFile name dir fileSet checksumExtensions = true
  · rw [if_pos h1]
    obtain ⟨ext, hext, hmem⟩ := by
      have := h1
      unfold hasCompanionFile at this
      rw [List.any_eq_true] at this
      exact this
    rw [List.elem_iff] at hmem
    rw [if_neg]
    intro hc
    exact hc.1 ext hext hmem
  · rw [if_neg h1]
    have h1' : ∀ ext ∈ checksumExtensions, joinPath dir (name ++ ext) ∉ fileSet := by
      intro ext hext hmem
      apply h1
      unfold hasCompanionFile
      rw [List.any_eq_true]
      exact ⟨ext, hext, List.elem_iff.mpr hmem⟩
    by_cases h2 : (checksumFileNames.any fun csName => fileSet.contains (joinPath dir csName)) = true
    · rw [if_pos h2]
      obtain ⟨cs, hcs, hmem⟩ := List.any_eq_true.mp h2
      rw [List.elem_iff] at hmem
      rw [if_neg]
      intro hc
      exact hc.2 cs hcs hmem
    · rw [if_neg h2, if_pos]
      refine ⟨h1', ?_⟩
      intro cs hcs hmem
      apply h2
      rw [List.any_eq_true]
      exact ⟨cs, hcs, List.elem_iff.mpr hmem⟩

/-- Model of `checkUnsignedArtifact`, restated with the signature-companion
condition. -/
theorem checkUnsignedArtifact_eq (p name dir : String) (fileSet : List String) :
    checkUnsignedArtifact p name dir fileSet
      = if (∀ ext ∈ signatureExtensions, joinPath dir (name ++ ext) ∉ fileSet)
        then [unsignedArtifactFinding p name] else [] := by
  unfold checkUnsignedArtifact
  by_cases h1 : hasCompanionFile name dir fileSet signatureExtensions = true
  · rw [if_pos h1]
    obtain ⟨ext, hext, hmem⟩ := by
      have := h1
      unfold hasCompanionFile at this
      rw [List.any_eq_true] at this
      exact this
    rw [List.elem_iff] at hmem
    rw [if_neg]
    intro hc
    exact hc ext hext hmem
  · rw [if_neg h1, if_pos]
    intro ext hext hmem
    apply h1
    unfold hasCompanionFile
    rw [List.any_eq_true]
    exact ⟨ext, hext, List.elem_iff.mpr hmem⟩

/-! ## Claims C2 and C5 -/

/-- Claim C2: For every indexed file whose name is a release artifact, the
ARTINT-001 findings of the scan at that file are exactly one
missing-checksum finding (severity High, confidence High, metadata type
`missing_checksum`) if no checksum-companion path
`artifactDir/artifactName + ext` is in the file index and no fixed
checksum-manifest name exists in the directory of the artifact — and none
otherwise. -/
theorem missing_checksum_exactly_one (env : ScanEnv) (files : List String) (p : String)
    (hnd : files.Nodup) (hp : p ∈ files)
    (hart : isReleaseArtifact (baseName p) = true) :
    (scanFiles env files).filter (fun f => f.ruleId == "ARTINT-001" && f.path == p)
      = if (∀ ext ∈ checksumExtensions, joinPath (dirName p) (baseName p ++ ext) ∉ files) ∧
           (∀ csName ∈ checksumFileNames, joinPath (dirName p) csName ∉ files)
        then [missingChecksumFinding p (baseName p)] else [] := by
  unfold scanFiles
  rw [filter_flatMap_single (checksForFile env files) _ p files hnd hp ?hother]
  case hother =>
    intro q _ hqp f hf
    rw [Bool.and_eq_false_iff]
    right
    rw [beq_eq_false_iff_ne]
    rw [checksForFile_mem hf]
    exact hqp
  have hsplit : (checksForFile env files p).filter
      (fun f => f.ruleId == "ARTINT-001" && f.path == p)
      = (checksForFile env files p).filter (fun f => f.ruleId == "ARTINT-001") := by
    apply List.filter_congr
    intro f hf
    rw [checksForFile_mem hf]
    simp
  rw [hsplit, checksForFile_filter_001 env files p hart, checkMissingChecksum_eq]

/-- Claim C5: For every indexed file whose name is a release artifact, the
ARTINT-002 findings of the scan at that file are exactly one
unsigned-artifact finding (severity Medium, confidence Medium) if no
signature-companion path `artifactDir/artifactName + ext` is in the file
index — and none otherwise; the condition involves neither the checksum
companions nor any bulk manifest. -/
theorem unsigned_artifact_exactly_one (env : ScanEnv) (files : List String) (p : String)
    (hnd : files.Nodup) (hp : p ∈ files)
    (hart : isReleaseArtifact (baseName p) = true) :
    (scanFiles env files).filter (fun f => f.ruleId == "ARTINT-002" && f.path == p)
      = if (∀ ext ∈ signatureExtensions, joinPath (dirName p) (baseName p ++ ext) ∉ files)
        then [unsignedArtifactFinding p (baseName p)] else [] := by
  unfold scanFiles
  rw [filter_flatMap_single (checksForFile env files) _ p files hnd hp ?hother]
  case hother =>
    intro q _ hqp f hf
    rw [Bool.and_eq_false_iff]
    right
    rw [beq_eq_false_iff_ne]
    rw [checksForFile_mem hf]
    exact hqp
  have hsplit : (checksForFile env files p).filter
      (fun f => f.ruleId == "ARTINT-002" && f.path == p)
      = (checksForFile env files p).filter (fun f => f.ruleId == "ARTINT-002") := by
    apply List.filter_congr
    intro f hf
    rw [checksForFile_mem hf]
    simp
  rw [hsplit, checksForFile_filter_002 env files p hart, checkUnsignedArtifact_eq]

/-! ## Claim C4 -/

theorem metaLookup_npm (fp k ver : String) :
    metaLookup (npmMissingIntegrityFinding fp k ver) ("package") = some k := rfl

/-- The per-entry decision, restated with the conditions of the claim. -/
theorem npmEntryCheck_eq (fp k : String) (pkg : NpmPkg) :
    (npmEntryCheck fp (k, pkg)).toList
      = if k ≠ "" ∧ pkg.resolved ≠ "" ∧ pkg.integrity = ""
        then [npmMissingIntegrityFinding fp k pkg.version] else [] := by
  unfold npmEntryCheck
  by_cases h1 : k = ""
  · simp [h1]
  · rw [if_neg h1]
    by_cases h2 : pkg.integrity = "" ∧ pkg.resolved ≠ ""
    · rw [if_pos h2, if_pos ⟨h1, h2.2, h2.1⟩]
      rfl
    · rw [if_neg h2, if_neg ?hng]
      case hng =>
        intro hc
        exact h2 ⟨hc.2.2, hc.2.1⟩
      rfl

/-- The lockfile findings whose `package` metadata is `k` come exactly
from the unique entry with key `k`. -/
theorem npm_filterMap_filter (fp : String) :
    ∀ (pkgs : List (String × NpmPkg)) (k : String) (pkg : NpmPkg),
      (pkgs.map Prod.fst).Nodup → (k, pkg) ∈ pkgs →
      (pkgs.filterMap (npmEntryCheck fp)).filter
          (fun f => metaLookup f ("package") == some k)
        = (npmEntryCheck fp (k, pkg)).toList := by
  intro pkgs
  induction pkgs with
  | nil => intro k pkg _ hmem; simp at hmem
  | cons kp rest ih =>
    intro k pkg hnd hmem
    obtain ⟨k0, pkg0⟩ := kp
    have hnd' : (rest.map Prod.fst).Nodup := (List.nodup_cons.mp (by simpa using hnd)).2
    have hk0 : k0 ∉ rest.map Prod.fst := (List.nodup_cons.mp (by simpa using hnd)).1
    rw [List.filterMap_cons]
    rcases List.mem_cons.mp hmem with heq | hmem'
    · injection heq with e1 e2
      subst e1
      subst e2
      have hrest : (rest.filterMap (npmEntryCheck fp)).filter
          (fun f => metaLookup f ("package") == some k) = [] := by
        rw [List.filter_eq_nil_iff]
        intro f hf
        rw [List.mem_filterMap] at hf
        obtain ⟨kp', hkp', hsome⟩ := hf
        rw [npmEntryCheck_mem hsome, metaLookup_npm]
        have : kp'.1 ≠ k := by
          intro e
          apply hk0
          rw [← e]
          exact List.mem_map_of_mem Prod.fst hkp'
        simp [this]
      cases hcheck : npmEntryCheck fp (k, pkg) with
      | none =>
        show (rest.filterMap (npmEntryCheck fp)).filter
          (fun f => metaLookup f ("package") == some k) = []
        exact hrest
      | some f =>
        have hfeq := npmEntryCheck_mem hcheck
        have hpred : (metaLookup f ("package") == some k) = true := by
          rw [hfeq, metaLookup_npm]
          simp
        show (f :: rest.filterMap (npmEntryCheck fp)).filter
          (fun f => metaLookup f ("package") == some k) = [f]
        rw [List.filter_cons, if_pos hpred, hrest]
    · have hne : k0 ≠ k := by
        intro e
        apply hk0
        rw [e]
        exact List.mem_map_of_mem Prod.fst hmem'
      have hih := ih k pkg hnd' hmem'
      cases hcheck : npmEntryCheck fp (k0, pkg0) with
      | none => exact hih
      | some f =>
        have hfeq := npmEntryCheck_mem hcheck
        have hpred : ¬ ((metaLookup f ("package") == some k) = true) := by
          rw [hfeq, metaLookup_npm]
          simp
          exact hne
        show (f :: rest.filterMap (npmEntryCheck fp)).filter
          (fun f => metaLookup f ("package") == some k) = _
        rw [List.filter_cons, if_neg hpred]
        exact hih

/-- Claim C4: In a parsed `package-lock.json`: every entry with non-empty
key, non-empty resolved URL and empty integrity yields exactly one
`ARTINT-003` missing-integrity finding carrying its package path and
version; entries with integrity set, and the root entry (empty key), are
never flagged; and a document that fails to parse contributes no findings
while the rest of the per-file dispatch still yields nothing else for
that file, leaving the remaining scan intact. -/
theorem npm_lockfile_integrity (env : ScanEnv) (fp : String) :
    (∀ data pkgs, env.read fp = some data → env.parseNpm data = some pkgs →
      (pkgs.map Prod.fst).Nodup →
      ∀ k pkg, (k, pkg) ∈ pkgs →
        (checkNPMLockfileIntegrity env fp).filter
            (fun f => metaLookup f ("package") == some k)
          = if k ≠ "" ∧ pkg.resolved ≠ "" ∧ pkg.integrity = ""
            then [npmMissingIntegrityFinding fp k pkg.version] else []) ∧
    (∀ data, env.read fp = some data → env.parseNpm data = none →
      checkNPMLockfileIntegrity env fp = []) ∧
    (∀ fileSet data, env.read fp = some data → env.parseNpm data = none →
      baseName fp = "package-lock.json" → checksForFile env fileSet fp = []) := by
  have hparsed : ∀ data pkgs, env.read fp = some data → env.parseNpm data = some pkgs →
      checkNPMLockfileIntegrity env fp = pkgs.filterMap (npmEntryCheck fp) := by
    intro data pkgs hr hp
    unfold checkNPMLockfileIntegrity
    rw [hr]
    show (match env.parseNpm data with
      | none => ([] : List Finding)
      | some pkgs => pkgs.filterMap (npmEntryCheck fp)) = _
    rw [hp]
  have hfailed : ∀ data, env.read fp = some data → env.parseNpm data = none →
      checkNPMLockfileIntegrity env fp = [] := by
    intro data hr hp
    unfold checkNPMLockfileIntegrity
    rw [hr]
    show (match env.parseNpm data with
      | none => ([] : List Finding)
      | some pkgs => pkgs.filterMap (npmEntryCheck fp)) = _
    rw [hp]
  refine ⟨?_, hfailed, ?_⟩
  · intro data pkgs hr hp hnd k pkg hmem
    rw [hparsed data pkgs hr hp, npm_filterMap_filter fp pkgs k pkg hnd hmem,
      npmEntryCheck_eq]
  · intro fileSet data hr hp hbase
    unfold checksForFile checkLockfileIntegrity
    rw [hbase]
    dsimp only
    rw [if_neg (show ¬ (isReleaseArtifact ("package-lock.json") = true) from by decide)]
    rw [if_neg (show ¬ (checksumFileNames.contains ("package-lock.json") = true) from by decide)]
    rw [if_pos (show lockfileNames.contains ("package-lock.json") = true from by decide)]
    rw [if_pos (show ("package-lock.json" : String) = "package-lock.json" from rfl)]
    rw [hfailed data hr hp]
    rfl

/-! ## Claim C10 -/

/-- A file whose base name triggers none of the classifiers produces no
findings. -/
theorem checksForFile_eq_nil_of_inert (env : ScanEnv) (fileSet : List String) (p : String)
    (h1 : isReleaseArtifact (baseName p) = false)
    (h2 : checksumFileNames.contains (baseName p) = false)
    (h3 : ¬ baseName p = "package-lock.json")
    (h4 : ¬ baseName p = "go.sum") :
    checksForFile env fileSet p = [] := by
  unfold checksForFile checkLockfileIntegrity
  dsimp only
  rw [if_neg (show ¬ (isReleaseArtifact (baseName p) = true) from by
    rw [h1]; exact Bool.false_ne_true)]
  rw [if_neg (show ¬ (checksumFileNames.contains (baseName p) = true) from by
    rw [h2]; exact Bool.false_ne_true)]
  rw [if_neg h3, if_neg h4]
  by_cases g3 : lockfileNames.contains (baseName p) = true
  · rw [if_pos g3]
    rfl
  · rw [if_neg g3]
    rfl

/-- Claim C10: Files recognized as lockfiles other than `package-lock.json`
and `go.sum` — `yarn.lock`, `Gemfile.lock`, `poetry.lock`, `Cargo.lock`,
`composer.lock` — never produce any finding: the lockfile dispatcher has
no check for those base names, and the rest of the per-file dispatch does
not classify them either. -/
theorem inert_lockfiles_no_findings (env : ScanEnv) (fileSet : List String) (p : String)
    (hbase : baseName p ∈ ["yarn.lock", "Gemfile.lock", "poetry.lock", "Cargo.lock",
      "composer.lock"]) :
    checkLockfileIntegrity env p = [] ∧ checksForFile env fileSet p = [] := by
  have hd : baseName p = "yarn.lock" ∨ baseName p = "Gemfile.lock" ∨
      baseName p = "poetry.lock" ∨ baseName p = "Cargo.lock" ∨
      baseName p = "composer.lock" := by
    simpa using hbase
  have h1 : isReleaseArtifact (baseName p) = false := by
    rcases hd with h | h | h | h | h <;> rw [h] <;> decide
  have h2 : checksumFileNames.contains (baseName p) = false := by
    rcases hd with h | h | h | h | h <;> rw [h] <;> decide
  have h3 : ¬ baseName p = "package-lock.json" := by
    rcases hd with h | h | h | h | h <;> rw [h] <;> decide
  have h4 : ¬ baseName p = "go.sum" := by
    rcases hd with h | h | h | h | h <;> rw [h] <;> decide
  refine ⟨?_, checksForFile_eq_nil_of_inert env fileSet p h1 h2 h3 h4⟩
  unfold checkLockfileIntegrity
  rw [if_neg h3, if_neg h4]

/-! ## Claim C7 -/

/-- The walk can only abort with `context.Canceled`, which `handleScan`
does not treat as fatal. -/
theorem walkErr_not_fatal (werr : Option GoError) :
    ¬ (werr ≠ none ∧ werr ≠ some GoError.canceled) := by
  cases werr with
  | none => intro hc; exact hc.1 rfl
  | some e =>
    cases e
    intro hc
    exact hc.2 rfl

/-- Model of `handleScan` on a stat-able non-empty root reduces to the per-file
loop over whatever the walk collected, whether or not the walk was
cancelled. -/
theorem handleScan_walk_eq (cancelAt : Option Nat) (rootStat : Option FsEntry)
    (rootPath : String) (env : ScanEnv) (root : FsEntry) (t : Nat) (files : List String)
    (werr : Option GoError)
    (hroot : ¬ rootPath = "") (hstat : rootStat = some root)
    (hw : walkEntry cancelAt 0 rootPath root = (t, files, werr)) :
    handleScan cancelAt rootStat rootPath env
      = Except.ok (scanLoop env cancelAt t files files) := by
  subst hstat
  unfold handleScan
  rw [if_neg hroot]
  show (match walkEntry cancelAt 0 rootPath root with
    | (t, files, werr) =>
      if werr ≠ none ∧ werr ≠ some GoError.canceled then Except.error ScanErr.walkFailed
      else Except.ok (scanLoop env cancelAt t files files)) = _
  rw [hw]
  show (if werr ≠ none ∧ werr ≠ some GoError.canceled then Except.error ScanErr.walkFailed
    else Except.ok (scanLoop env cancelAt t files files)) = _
  rw [if_neg (walkErr_not_fatal werr)]

/-- A cancellation signal present from the start aborts the walk at its
very first check. -/
theorem walkEntry_cancelled_at_zero (p : String) (e : FsEntry) :
    walkEntry (some 0) 0 p e = (1, [], some GoError.canceled) := by
  cases e with
  | file name =>
    unfold walkEntry
    rw [if_pos (show ctxDone (some 0) 0 = true from rfl)]
  | dir name sub =>
    unfold walkEntry
    rw [if_pos (show ctxDone (some 0) 0 = true from rfl)]

/-- Claim C7: The scan never propagates a failure: it always returns a
well-formed, possibly truncated, finding list; an unreachable root or a
cancellation signal that precedes the walk yield the empty result; and an
unreadable directory is skipped with the walk of its siblings continuing
unchanged (files are never opened by the walk itself, so only the
checkers — which silently return nothing — touch their contents). -/
theorem scan_degrades_gracefully (cancelAt : Option Nat) (rootStat : Option FsEntry)
    (rootPath : String) (env : ScanEnv) :
    (∃ findings, handleScan cancelAt rootStat rootPath env = Except.ok findings) ∧
    (rootStat = none → handleScan cancelAt rootStat rootPath env = Except.ok []) ∧
    (cancelAt = some 0 → handleScan cancelAt rootStat rootPath env = Except.ok []) ∧
    (∀ (t : Nat) (dpath name : String) (rest : List FsEntry), ctxDone cancelAt t = false →
      walkList cancelAt t dpath (FsEntry.dir name none :: rest)
        = walkList cancelAt (t + 1) dpath rest) := by
  refine ⟨?_, ?_, ?_, ?_⟩
  · by_cases hroot : rootPath = ""
    · refine ⟨[], ?_⟩
      unfold handleScan
      rw [if_pos hroot]
    cases hstat : rootStat with
    | none =>
      refine ⟨[], ?_⟩
      unfold handleScan
      rw [if_neg hroot]
    | some root =>
      rcases hw : walkEntry cancelAt 0 rootPath root with ⟨t, files, werr⟩
      exact ⟨scanLoop env cancelAt t files files,
        handleScan_walk_eq cancelAt (some root) rootPath env root t files werr hroot rfl hw⟩
  · intro hstat
    subst hstat
    unfold handleScan
    by_cases hroot : rootPath = ""
    · rw [if_pos hroot]
    · rw [if_neg hroot]
  · intro hcz
    subst hcz
    by_cases hroot : rootPath = ""
    · unfold handleScan
      rw [if_pos hroot]
    cases hstat : rootStat with
    | none =>
      unfold handleScan
      rw [if_neg hroot]
    | some root =>
      have hrun := handleScan_walk_eq (some 0) (some root) rootPath env root 1 []
        (some GoError.canceled) hroot rfl (walkEntry_cancelled_at_zero rootPath root)
      rw [hrun]
      rfl
  · intro t dpath name rest hc
    have hw : walkEntry cancelAt t (joinPath dpath name) (FsEntry.dir name none)
        = (t + 1, [], none) := by
      unfold walkEntry
      rw [if_neg (show ¬ (ctxDone cancelAt t = true) from by
        rw [hc]; exact Bool.false_ne_true)]
      by_cases hskip : skippedDirs.contains name = true
      · rw [if_pos hskip]
      · rw [if_neg hskip]
    show (match walkEntry cancelAt t (joinPath dpath (entryName (FsEntry.dir name none)))
        (FsEntry.dir name none) with
      | (t', fs, some err) => (t', fs, some err)
      | (t', fs, none) =>
        match walkList cancelAt t' dpath rest with
        | (t'', fs₂, r) => (t'', fs ++ fs₂, r)) = walkList cancelAt (t + 1) dpath rest
    rw [show entryName (FsEntry.dir name none) = name from rfl, hw]
    show (match walkList cancelAt (t + 1) dpath rest with
      | (t'', fs₂, r) => (t'', ([] : List String) ++ fs₂, r))
        = walkList cancelAt (t + 1) dpath rest
    rcases hrest : walkList cancelAt (t + 1) dpath rest with ⟨t2, fs2, r⟩
    show (t2, ([] : List String) ++ fs2, r) = (t2, fs2, r)
    rw [show (([] : List String) ++ fs2) = fs2 from List.nil_append fs2]

/-! ## Claim C8 -/

/-- Two parse results that are the same map observed in different
iteration orders. -/
def OptPerm : Option (List (String × NpmPkg)) → Option (List (String × NpmPkg)) → Prop
  | none, none => True
  | some l1, some l2 => l1.Perm l2
  | _, _ => False

/-- Two scan environments over the same tree whose JSON maps may be
iterated in different orders between two runs. -/
def EnvAgree (e1 e2 : ScanEnv) : Prop :=
  e1.read = e2.read ∧ ∀ data, OptPerm (e1.parseNpm data) (e2.parseNpm data)

theorem flatMap_perm_pointwise {α β : Type} (f g : α → List β) :
    ∀ (l : List α), (∀ x ∈ l, (f x).Perm (g x)) → (l.flatMap f).Perm (l.flatMap g) := by
  intro l
  induction l with
  | nil => intro _; simp
  | cons a rest ih =>
    intro h
    rw [List.flatMap_cons, List.flatMap_cons]
    exact (h a (List.mem_cons_self a rest)).append
      (ih (fun x hx => h x (List.mem_cons_of_mem _ hx)))

theorem processChecksumLine_congr {e1 e2 : ScanEnv} (h : e1.read = e2.read)
    (dir cpath : String) (n : Nat) (raw : String) :
    processChecksumLine e1 dir cpath n raw = processChecksumLine e2 dir cpath n raw := by
  unfold processChecksumLine
  rw [h]

theorem checksumLines_congr {e1 e2 : ScanEnv} (h : e1.read = e2.read) (dir cpath : String) :
    ∀ (ls : List String) (n : Nat),
      checksumLines e1 dir cpath n ls = checksumLines e2 dir cpath n ls := by
  intro ls
  induction ls with
  | nil => intro n; rfl
  | cons raw rest ih =>
    intro n
    unfold checksumLines
    rw [processChecksumLine_congr h, ih]

theorem checkChecksumMismatches_congr {e1 e2 : ScanEnv} (h : e1.read = e2.read)
    (cpath dir : String) :
    checkChecksumMismatches e1 cpath dir = checkChecksumMismatches e2 cpath dir := by
  unfold checkChecksumMismatches
  rw [h]
  cases e2.read cpath with
  | none => rfl
  | some bytes =>
    show checksumLines e1 dir cpath 1 (linesOf bytes) = checksumLines e2 dir cpath 1 (linesOf bytes)
    rw [checksumLines_congr h]

theorem checkGoSumIntegrity_congr {e1 e2 : ScanEnv} (h : e1.read = e2.read) (fp : String) :
    checkGoSumIntegrity e1 fp = checkGoSumIntegrity e2 fp := by
  unfold checkGoSumIntegrity
  rw [h]

theorem checkNPMLockfileIntegrity_perm {e1 e2 : ScanEnv} (hag : EnvAgree e1 e2) (fp : String) :
    (checkNPMLockfileIntegrity e1 fp).Perm (checkNPMLockfileIntegrity e2 fp) := by
  unfold checkNPMLockfileIntegrity
  rw [hag.1]
  cases e2.read fp with
  | none => exact List.Perm.refl _
  | some data =>
    show (match e1.parseNpm data with
      | none => ([] : List Finding)
      | some pkgs => pkgs.filterMap (npmEntryCheck fp)).Perm
      (match e2.parseNpm data with
      | none => ([] : List Finding)
      | some pkgs => pkgs.filterMap (npmEntryCheck fp))
    have hop := hag.2 data
    cases h1 : e1.parseNpm data with
    | none =>
      cases h2 : e2.parseNpm data with
      | none => exact List.Perm.refl _
      | some l2 =>
        rw [h1, h2] at hop
        exact absurd hop (by simp [OptPerm])
    | some l1 =>
      cases h2 : e2.parseNpm data with
      | none =>
        rw [h1, h2] at hop
        exact absurd hop (by simp [OptPerm])
      | some l2 =>
        rw [h1, h2] at hop
        show (l1.filterMap (npmEntryCheck fp)).Perm (l2.filterMap (npmEntryCheck fp))
        exact hop.filterMap (npmEntryCheck fp)

theorem checkLockfileIntegrity_perm {e1 e2 : ScanEnv} (hag : EnvAgree e1 e2) (fp : String) :
    (checkLockfileIntegrity e1 fp).Perm (checkLockfileIntegrity e2 fp) := by
  unfold checkLockfileIntegrity
  by_cases h1 : baseName fp = "package-lock.json"
  · rw [if_pos h1, if_pos h1]
    exact checkNPMLockfileIntegrity_perm hag fp
  · rw [if_neg h1, if_neg h1]
    by_cases h2 : baseName fp = "go.sum"
    · rw [if_pos h2, if_pos h2, checkGoSumIntegrity_congr hag.1]
    · rw [if_neg h2, if_neg h2]

theorem checksForFile_perm {e1 e2 : ScanEnv} (hag : EnvAgree e1 e2)
    (fileSet : List String) (q : String) :
    (checksForFile e1 fileSet q).Perm (checksForFile e2 fileSet q) := by
  unfold checksForFile
  refine List.Perm.append (List.Perm.append ?_ ?_) ?_
  · exact List.Perm.refl _
  · by_cases h2 : checksumFileNames.contains (baseName q) = true
    · rw [if_pos h2, if_pos h2, checkChecksumMismatches_congr hag.1]
    · rw [if_neg h2, if_neg h2]
  · by_cases h3 : lockfileNames.contains (baseName q) = true
    · rw [if_pos h3, if_pos h3]
      exact checkLockfileIntegrity_perm hag q
    · rw [if_neg h3, if_neg h3]

theorem scanLoop_perm {e1 e2 : ScanEnv} (hag : EnvAgree e1 e2) (cancelAt : Option Nat)
    (allFiles : List String) :
    ∀ (todo : List String) (t : Nat),
      (scanLoop e1 cancelAt t allFiles todo).Perm (scanLoop e2 cancelAt t allFiles todo) := by
  intro todo
  induction todo with
  | nil => intro t; exact List.Perm.refl _
  | cons p rest ih =>
    intro t
    unfold scanLoop
    by_cases hc : ctxDone cancelAt t = true
    · rw [if_pos hc, if_pos hc]
    · rw [if_neg hc, if_neg hc]
      exact (checksForFile_perm hag allFiles p).append (ih (t + 1))

/-- Claim C8: Two runs of the scan over an unchanged tree — same file
contents, same cancellation behaviour, with only the unordered JSON map
iteration free to differ — both succeed and produce the same findings up
to permutation: the finding set is a deterministic function of the
tree. -/
theorem scan_deterministic_up_to_order (e1 e2 : ScanEnv) (hag : EnvAgree e1 e2)
    (cancelAt : Option Nat) (rootStat : Option FsEntry) (rootPath : String) :
    ∃ l1 l2, handleScan cancelAt rootStat rootPath e1 = Except.ok l1 ∧
      handleScan cancelAt rootStat rootPath e2 = Except.ok l2 ∧ l1.Perm l2 := by
  by_cases hroot : rootPath = ""
  · refine ⟨[], [], ?_, ?_, List.Perm.refl []⟩ <;>
      (unfold handleScan; rw [if_pos hroot])
  cases hstat : rootStat with
  | none =>
    refine ⟨[], [], ?_, ?_, List.Perm.refl []⟩ <;>
      (unfold handleScan; rw [if_neg hroot])
  | some root =>
    rcases hw : walkEntry cancelAt 0 rootPath root with ⟨t, files, werr⟩
    refine ⟨scanLoop e1 cancelAt t files files, scanLoop e2 cancelAt t files files,
      handleScan_walk_eq cancelAt (some root) rootPath e1 root t files werr hroot rfl hw,
      handleScan_walk_eq cancelAt (some root) rootPath e2 root t files werr hroot rfl hw,
      scanLoop_perm hag cancelAt files files t⟩

/-! ## Concrete witness environments -/

/-- A 64-character all-zero declared hash. -/
def wZeros : String := String.mk (List.replicate 64 '0')

/-- A one-line `SHA256SUMS` manifest declaring the all-zero hash for
`app.tar.gz`. -/
def wManifestBytes : List Nat := bytesOfAscii (wZeros ++ "  app.tar.gz")

/-- A tree with the manifest and an empty `app.tar.gz` next to it. -/
def wEnv : ScanEnv :=
  { read := fun p =>
      if p = "r/SHA256SUMS" then some wManifestBytes
      else if p = "r/app.tar.gz" then some [] else none,
    parseNpm := fun _ => none }

/-- The same manifest with the referenced file unreadable. -/
def w6Env : ScanEnv :=
  { read := fun p => if p = "r/SHA256SUMS" then some wManifestBytes else none,
    parseNpm := fun _ => none }

/-- A lockfile whose only dependency entry lacks an integrity hash. -/
def wNpmEnv : ScanEnv :=
  { read := fun p => if p = "a/package-lock.json" then some [123] else none,
    parseNpm := fun data =>
      if data = [123] then
        some [("", ⟨"1.0.0", "", ""⟩), ("node_modules/noint-pkg", ⟨"4.17.21", "https://x", ""⟩)]
      else none }

/-- A lockfile whose bytes fail to parse as a structured document. -/
def wNpmFailEnv : ScanEnv :=
  { read := fun _ => some [], parseNpm := fun _ => none }

/-! ## Witnesses -/

theorem checksum_mismatch_iff_witness :
    (∃ f ∈ checkChecksumMismatches wEnv ("r/SHA256SUMS") ("r"),
        f.ruleId = "ARTINT-003" ∧ f.severity = Severity.critical ∧
        f.confidence = Confidence.high ∧ f.path = "r/SHA256SUMS" ∧
        f.startLine = 0 + 1 ∧ f.endLine = 0 + 1 ∧
        metaLookup f ("type") = some "checksum_mismatch") ↔
      ((asciiToLower wZeros).length = 64 ∧
        ∃ data, wEnv.read (joinPath ("r") (trimStar (trimSpace ("app.tar.gz")))) = some data ∧
          sha256Hex data ≠ asciiToLower wZeros) :=
  checksum_mismatch_iff wEnv "r/SHA256SUMS" "r" wManifestBytes 0
    (wZeros ++ "  app.tar.gz") wZeros "app.tar.gz" (by decide) (by decide) (by decide)

theorem missing_checksum_exactly_one_witness :
    (scanFiles wEnv ["x/app.tar.gz"]).filter
        (fun f => f.ruleId == "ARTINT-001" && f.path == "x/app.tar.gz")
      = if (∀ ext ∈ checksumExtensions,
              joinPath (dirName ("x/app.tar.gz")) (baseName ("x/app.tar.gz") ++ ext)
                ∉ ["x/app.tar.gz"]) ∧
           (∀ csName ∈ checksumFileNames,
              joinPath (dirName ("x/app.tar.gz")) csName ∉ ["x/app.tar.gz"])
        then [missingChecksumFinding ("x/app.tar.gz") (baseName ("x/app.tar.gz"))] else [] :=
  missing_checksum_exactly_one wEnv ["x/app.tar.gz"] "x/app.tar.gz"
    (by decide) (by decide) (by decide)

theorem gosum_duplicate_detection_witness :
    (checkGoSumIntegrity goSumCollisionEnv ("go.sum")).filter (fun f => f.startLine == 1 + 1)
      = conflictDecision
          (lastGoSumHash ((linesOf goSumCollisionBytes).take 1) ("a" ++ "@" ++ "b@c"))
          ("go.sum") (1 + 1) ("a") ("b@c") ("h1:yy") :=
  gosum_duplicate_detection goSumCollisionEnv "go.sum" goSumCollisionBytes 1
    ("a b@c h1:yy") "a" "b@c" "h1:yy" (by decide) (by decide) (by decide)

theorem npm_lockfile_integrity_witness :
    ((checkNPMLockfileIntegrity wNpmEnv ("a/package-lock.json")).filter
        (fun f => metaLookup f ("package") == some "node_modules/noint-pkg")
      = if ("node_modules/noint-pkg" : String) ≠ "" ∧ ("https://x" : String) ≠ "" ∧
           ("" : String) = ""
        then [npmMissingIntegrityFinding ("a/package-lock.json") ("node_modules/noint-pkg")
          ("4.17.21")] else []) ∧
    checkNPMLockfileIntegrity wNpmFailEnv ("b/package-lock.json") = [] :=
  ⟨(npm_lockfile_integrity wNpmEnv "a/package-lock.json").1 [123]
      [("", ⟨"1.0.0", "", ""⟩), ("node_modules/noint-pkg", ⟨"4.17.21", "https://x", ""⟩)]
      (by decide) (by decide) (by decide) "node_modules/noint-pkg"
      ⟨"4.17.21", "https://x", ""⟩ (by decide),
    (npm_lockfile_integrity wNpmFailEnv "b/package-lock.json").2.1 [] (by decide) (by decide)⟩

theorem unsigned_artifact_exactly_one_witness :
    (scanFiles wEnv ["x/app.tar.gz"]).filter
        (fun f => f.ruleId == "ARTINT-002" && f.path == "x/app.tar.gz")
      = if (∀ ext ∈ signatureExtensions,
              joinPath (dirName ("x/app.tar.gz")) (baseName ("x/app.tar.gz") ++ ext)
                ∉ ["x/app.tar.gz"])
        then [unsignedArtifactFinding ("x/app.tar.gz") (baseName ("x/app.tar.gz"))] else [] :=
  unsigned_artifact_exactly_one wEnv ["x/app.tar.gz"] "x/app.tar.gz"
    (by decide) (by decide) (by decide)

theorem missing_referenced_file_skipped_witness :
    (∀ f ∈ checkChecksumMismatches w6Env ("r/SHA256SUMS") ("r"), f.startLine ≠ 0 + 1) ∧
    checkChecksumMismatches w6Env ("r/SHA256SUMS") ("r")
      = checksumLines w6Env ("r") ("r/SHA256SUMS") 1 ((linesOf wManifestBytes).set 0 ("")) :=
  missing_referenced_file_skipped w6Env "r/SHA256SUMS" "r" wManifestBytes 0
    (wZeros ++ "  app.tar.gz") wZeros "app.tar.gz" (by decide) (by decide) (by decide)
    (by decide)

theorem scan_degrades_gracefully_witness :
    handleScan (some 0) none ("w") wEnv = Except.ok [] :=
  (scan_degrades_gracefully (some 0) none "w" wEnv).2.1 rfl

theorem scan_deterministic_up_to_order_witness :
    ∃ l1 l2, handleScan none (some (FsEntry.dir ("r") (some [FsEntry.file ("a.zip")])))
        ("r") wEnv = Except.ok l1 ∧
      handleScan none (some (FsEntry.dir ("r") (some [FsEntry.file ("a.zip")])))
        ("r") wEnv = Except.ok l2 ∧ l1.Perm l2 :=
  scan_deterministic_up_to_order wEnv wEnv ⟨rfl, fun _ => True.intro⟩ none
    (some (FsEntry.dir ("r") (some [FsEntry.file ("a.zip")]))) "r"

theorem inert_lockfiles_no_findings_witness :
    checkLockfileIntegrity wEnv ("a/yarn.lock") = [] ∧
    checksForFile wEnv ["a/yarn.lock"] ("a/yarn.lock") = [] :=
  inert_lockfiles_no_findings wEnv ["a/yarn.lock"] "a/yarn.lock" (by decide)

/-- With no cancellation signal, the per-file loop of `handleScan` is
exactly the scan over the indexed files that claims C2 and C5 quantify
over. -/
theorem scanLoop_no_cancel (env : ScanEnv) (allFiles : List String) :
    ∀ (todo : List String) (t : Nat),
      scanLoop env none t allFiles todo = todo.flatMap (checksForFile env allFiles) := by
  intro todo
  induction todo with
  | nil => intro t; rfl
  | cons p ps ih =>
    intro t
    unfold scanLoop
    rw [if_neg (show ¬ (ctxDone none t = true) from Bool.false_ne_true),
      List.flatMap_cons, ih]

end ArtifactIntegrity
